import Mathlib

/-!
# Binary-operation catalogue of `cpp/src/binary/jit/code/operation.cpp`

A shallow embedding of the operator structs (`Add`, `Sub`, ..., `RGreaterEqual`) that the
JIT pipeline instantiates with a concrete `(TypeOut, TypeLhs, TypeRhs)` triple.

Modelling decisions, all taken from the C++ the string is compiled as:

* integer types are the fixed-width types the pipeline instantiates (`int8_t` .. `uint64_t`);
  a value is a mathematical integer, and every conversion to an integer type reduces it
  modulo `2^bits` into the range of the target;
* operands of an arithmetic or comparison operator undergo the integer promotions and the
  usual arithmetic conversions (types narrower than `int` are computed in 32-bit `int`);
* signed `+`, `-`, `*` wrap around (two's complement, what the target hardware does);
  `/` and `%` are undefined for a zero divisor and for a quotient that is not representable;
* `float` and `double` are IEEE-754 binary32 / binary64 with round-to-nearest-even, signed
  zeros, infinities and NaN; a finite value is the rational number it denotes;
* `floor`, `fmod` and `fmodf` are the exact functions the C standard defines; `pow` and the
  trait predicates of `traits.h` are not part of the file and are parameters of the model.
-/

namespace BinopsJit

/-! ## Integer types -/

/-- The fixed-width integer types an operator can be instantiated with. -/
inductive IntTy where
  | int8 | int16 | int32 | int64 | uint8 | uint16 | uint32 | uint64
  deriving DecidableEq

/-- Width in bits. -/
def IntTy.bits : IntTy → Nat
  | .int8 | .uint8 => 8
  | .int16 | .uint16 => 16
  | .int32 | .uint32 => 32
  | .int64 | .uint64 => 64

/-- Signedness. -/
def IntTy.isSigned : IntTy → Bool
  | .int8 | .int16 | .int32 | .int64 => true
  | .uint8 | .uint16 | .uint32 | .uint64 => false

/-- Smallest representable value (`MIN`). -/
def IntTy.minVal (t : IntTy) : Int :=
  if t.isSigned then -(2 ^ (t.bits - 1)) else 0

/-- Largest representable value (`MAX`). -/
def IntTy.maxVal (t : IntTy) : Int :=
  if t.isSigned then 2 ^ (t.bits - 1) - 1 else 2 ^ t.bits - 1

/-- Representability of a mathematical integer in an integer type. -/
def IntTy.InRange (t : IntTy) (v : Int) : Prop :=
  t.minVal ≤ v ∧ v ≤ t.maxVal

instance (t : IntTy) (v : Int) : Decidable (t.InRange v) := by
  unfold IntTy.InRange; infer_instance

/-- Conversion of a mathematical integer to an integer type: the unique value of the type
congruent to it modulo `2^bits`. -/
def IntTy.wrap (t : IntTy) (v : Int) : Int :=
  if t.isSigned then (v + 2 ^ (t.bits - 1)) % 2 ^ t.bits - 2 ^ (t.bits - 1)
  else v % 2 ^ t.bits

/-- Integer promotion: types narrower than `int` are promoted to (32-bit) `int`. -/
def IntTy.promote : IntTy → IntTy
  | .int8 | .int16 | .uint8 | .uint16 => .int32
  | t => t

/-- Common type of two promoted integer types under the usual arithmetic conversions. -/
def IntTy.common (a b : IntTy) : IntTy :=
  if a = b then a
  else if a.isSigned = b.isSigned then (if a.bits ≤ b.bits then b else a)
  else if a.isSigned then (if a.bits ≤ b.bits then b else a)
  else (if b.bits ≤ a.bits then a else b)

/-! ## Floating point -/

/-- A binary floating-point format: precision in bits and largest exponent. -/
structure Fmt where
  prec : Nat
  emax : Int
  deriving DecidableEq

/-- IEEE-754 binary32 (`float`). -/
def binary32 : Fmt := ⟨24, 127⟩

/-- IEEE-754 binary64 (`double`). -/
def binary64 : Fmt := ⟨53, 1023⟩

/-- Smallest exponent of a normal number. -/
def Fmt.emin (f : Fmt) : Int := 1 - f.emax

/-- A floating-point datum: a finite number (the rational it denotes; `num 0` is `+0`),
negative zero, an infinity, or NaN. -/
inductive FP where
  | num (q : ℚ)
  | negZero
  | inf (neg : Bool)
  | nan
  deriving DecidableEq

/-- Rounding of a rational to the nearest integer, ties to even. -/
def roundHalfEven (x : ℚ) : Int :=
  let n := ⌊x⌋
  let d := x - n
  if d < 1 / 2 then n
  else if 1 / 2 < d then n + 1
  else if n % 2 = 0 then n else n + 1

/-- Spacing of the format's grid around `q`: `2 ^ (e - (prec - 1))`, where `e` is the
binary exponent of `q`, not below `emin` (subnormal range). -/
def Fmt.ulp (f : Fmt) (q : ℚ) : ℚ :=
  (2 : ℚ) ^ (max (Int.log 2 |q|) f.emin - ((f.prec : Int) - 1))

/-- Rounding of a real (rational) result to the format, round-to-nearest-even, with
overflow to infinity and a signed zero on underflow. -/
def Fmt.round (f : Fmt) (q : ℚ) : FP :=
  if q = 0 then .num 0
  else
    let r : ℚ := roundHalfEven (q / f.ulp q) * f.ulp q
    if (2 : ℚ) ^ (f.emax + 1) ≤ |r| then .inf (decide (q < 0))
    else if r = 0 ∧ q < 0 then .negZero
    else .num r

/-- Sign bit of a datum (NaN counts as positive). -/
def FP.isNeg : FP → Bool
  | .num q => decide (q < 0)
  | .negZero => true
  | .inf s => s
  | .nan => false

/-- A zero of the given sign. -/
def FP.zero (neg : Bool) : FP := if neg then .negZero else .num 0

/-- Rational value of a finite datum. -/
def FP.toRat? : FP → Option ℚ
  | .num q => some q
  | .negZero => some 0
  | _ => none

/-- Rounding of an exact result to the format; an exact zero takes the given sign. -/
def Fmt.roundSigned (f : Fmt) (zeroNeg : Bool) (q : ℚ) : FP :=
  if q = 0 then FP.zero zeroNeg else f.round q

/-- Conversion of a datum to a format (`float` to `double` and back). -/
def Fmt.ofFP (f : Fmt) : FP → FP
  | .num q => f.round q
  | x => x

/-- Negation. -/
def FP.neg : FP → FP
  | .num q => if q = 0 then .negZero else .num (-q)
  | .negZero => .num 0
  | .inf s => .inf (!s)
  | .nan => .nan

/-- IEEE addition in the format. -/
def Fmt.add (f : Fmt) : FP → FP → FP
  | .nan, _ => .nan
  | _, .nan => .nan
  | .inf s, .inf t => if s = t then .inf s else .nan
  | .inf s, _ => .inf s
  | _, .inf t => .inf t
  | .negZero, .negZero => .negZero
  | .negZero, .num q => .num q
  | .num q, .negZero => .num q
  | .num p, .num q => f.roundSigned false (p + q)

/-- IEEE subtraction in the format. -/
def Fmt.sub (f : Fmt) (a b : FP) : FP := f.add a b.neg

/-- IEEE multiplication in the format. -/
def Fmt.mul (f : Fmt) (a b : FP) : FP :=
  let s := xor a.isNeg b.isNeg
  match a, b with
  | .nan, _ => .nan
  | _, .nan => .nan
  | .inf _, .inf _ => .inf s
  | .inf _, y => if y.toRat? = some 0 then .nan else .inf s
  | x, .inf _ => if x.toRat? = some 0 then .nan else .inf s
  | x, y => f.roundSigned s ((x.toRat?.getD 0) * (y.toRat?.getD 0))

/-- IEEE division in the format. -/
def Fmt.div (f : Fmt) (a b : FP) : FP :=
  let s := xor a.isNeg b.isNeg
  match a, b with
  | .nan, _ => .nan
  | _, .nan => .nan
  | .inf _, .inf _ => .nan
  | .inf _, _ => .inf s
  | _, .inf _ => FP.zero s
  | x, y =>
    if y.toRat? = some 0 then (if x.toRat? = some 0 then .nan else .inf s)
    else f.roundSigned s ((x.toRat?.getD 0) / (y.toRat?.getD 0))

/-- The C library `floor` on a `double`: largest integral value not above the argument;
zeros, infinities and NaN are returned unchanged. -/
def FP.floor : FP → FP
  | .num q => .num (⌊q⌋ : Int)
  | x => x

/-- Truncation of a rational toward zero. -/
def truncQ (q : ℚ) : Int := if 0 ≤ q then ⌊q⌋ else ⌈q⌉

/-! ## Types and values -/

/-- The numeric types of the pipeline. -/
inductive Ty where
  | int (t : IntTy)
  | float
  | double
  deriving DecidableEq

/-- A typed operand. -/
inductive Val where
  | int (t : IntTy) (v : Int)
  | float (f : FP)
  | double (f : FP)
  deriving DecidableEq

/-- Static type of an operand. -/
def Val.ty : Val → Ty
  | .int t _ => .int t
  | .float _ => .float
  | .double _ => .double

/-- An operand is well formed when its payload is a value of its type. -/
def Val.WF : Val → Prop
  | .int t v => t.InRange v
  | .float f => binary32.ofFP f = f
  | .double f => binary64.ofFP f = f

/-- Why an instantiation produces no value: the behaviour is undefined at run time, or the
instantiation does not compile. -/
inductive Fault where
  | undefined
  | illFormed
  deriving DecidableEq

/-- Outcome of evaluating an expression. -/
abbrev Res (α : Type) := Except Fault α

deriving instance DecidableEq for Except

/-- Conversion of an operand to an integer type: integers wrap, floating values truncate
toward zero and are undefined when the truncated value is not representable. -/
def toInt (t : IntTy) : Val → Res Int
  | .int _ v => .ok (t.wrap v)
  | .float f | .double f =>
    match f with
    | .num q => if t.InRange (truncQ q) then .ok (truncQ q) else .error .undefined
    | .negZero => .ok 0
    | _ => .error .undefined

/-- Conversion of an operand to `float`: integers and doubles are rounded. -/
def toFloat : Val → FP
  | .int _ v => binary32.round v
  | .float x => x
  | .double x => binary32.ofFP x

/-- Conversion of an operand to `double`: integers are rounded, a `float` is already a
`double`. -/
def toDouble : Val → FP
  | .int _ v => binary64.round v
  | .float x => x
  | .double x => x

/-- The cast `(T)x`. -/
def convert (tout : Ty) (x : Val) : Res Val :=
  match tout with
  | .int t => (toInt t x).map (Val.int t)
  | .float => .ok (.float (toFloat x))
  | .double => .ok (.double (toDouble x))

/-- Type in which a binary operator is evaluated (usual arithmetic conversions). -/
def commonTy : Ty → Ty → Ty
  | .double, _ => .double
  | _, .double => .double
  | .float, _ => .float
  | _, .float => .float
  | .int a, .int b => .int (IntTy.common a.promote b.promote)

/-- The built-in arithmetic operators used by the catalogue. -/
inductive ArithOp where
  | add | sub | mul | div | mod
  deriving DecidableEq

/-- The built-in comparison operators used by the catalogue. -/
inductive CmpOp where
  | eq | ne | lt | gt | le | ge
  deriving DecidableEq

/-- Integer arithmetic in type `t` on operands already converted to `t`. -/
def intArith (t : IntTy) (op : ArithOp) (u v : Int) : Res Int :=
  match op with
  | .add => .ok (t.wrap (u + v))
  | .sub => .ok (t.wrap (u - v))
  | .mul => .ok (t.wrap (u * v))
  | .div =>
    if v = 0 then .error .undefined
    else if t.InRange (Int.tdiv u v) then .ok (Int.tdiv u v) else .error .undefined
  | .mod =>
    if v = 0 then .error .undefined
    else if t.InRange (Int.tdiv u v) then .ok (Int.tmod u v) else .error .undefined

/-- Floating arithmetic in a format; `%` has no floating operands. -/
def fpArith (f : Fmt) (op : ArithOp) (a b : FP) : Res FP :=
  match op with
  | .add => .ok (f.add a b)
  | .sub => .ok (f.sub a b)
  | .mul => .ok (f.mul a b)
  | .div => .ok (f.div a b)
  | .mod => .error .illFormed

/-- The expression `a op b` for an arithmetic operator: both operands are converted to the
common type and the operation is carried out there. -/
def arith (op : ArithOp) (a b : Val) : Res Val :=
  match commonTy a.ty b.ty with
  | .int t => do
    let u ← toInt t a
    let v ← toInt t b
    let r ← intArith t op u v
    pure (.int t r)
  | .float => (fpArith binary32 op (toFloat a) (toFloat b)).map Val.float
  | .double => (fpArith binary64 op (toDouble a) (toDouble b)).map Val.double

/-- Comparison of integers. -/
def intCmp (op : CmpOp) (u v : Int) : Bool :=
  match op with
  | .eq => decide (u = v)
  | .ne => decide (u ≠ v)
  | .lt => decide (u < v)
  | .gt => decide (u > v)
  | .le => decide (u ≤ v)
  | .ge => decide (u ≥ v)

/-- Position of a non-NaN datum on the extended line: below, on, or above the rationals. -/
def FP.key : FP → Int × ℚ
  | .num q => (0, q)
  | .negZero => (0, 0)
  | .inf s => (if s then -1 else 1, 0)
  | .nan => (0, 0)

/-- Ordering of two non-NaN data. -/
def FP.lt (a b : FP) : Bool :=
  decide (a.key.1 < b.key.1 ∨ (a.key.1 = b.key.1 ∧ a.key.2 < b.key.2))

/-- IEEE comparison: every comparison with a NaN is false, except `!=`. -/
def fpCmp (op : CmpOp) (a b : FP) : Bool :=
  if a = .nan ∨ b = .nan then decide (op = .ne)
  else
    match op with
    | .eq => decide (a.key = b.key)
    | .ne => decide (a.key ≠ b.key)
    | .lt => a.lt b
    | .gt => b.lt a
    | .le => a.lt b || decide (a.key = b.key)
    | .ge => b.lt a || decide (a.key = b.key)

/-- The expression `a op b` for a comparison operator, of type `bool`. -/
def compare (op : CmpOp) (a b : Val) : Res Bool :=
  match commonTy a.ty b.ty with
  | .int t => do
    let u ← toInt t a
    let v ← toInt t b
    pure (intCmp op u v)
  | .float => .ok (fpCmp op (toFloat a) (toFloat b))
  | .double => .ok (fpCmp op (toDouble a) (toDouble b))

/-- Conversion of a `bool` to the output type: `true` is 1 and `false` is 0. -/
def ofBool (tout : Ty) (b : Bool) : Val :=
  match tout with
  | .int t => .int t (if b then 1 else 0)
  | .float => .float (.num (if b then 1 else 0))
  | .double => .double (.num (if b then 1 else 0))

/-- The C library `fmod` / `fmodf`: the exact remainder `x - n * y` with `n` the quotient
truncated toward zero; a zero result has the sign of `x`. -/
def FP.fmod : FP → FP → FP
  | .nan, _ => .nan
  | _, .nan => .nan
  | .inf _, _ => .nan
  | x, .inf _ => x
  | x, y =>
    if y.toRat? = some 0 then .nan
    else
      let a := x.toRat?.getD 0
      let b := y.toRat?.getD 0
      let r := a - truncQ (a / b) * b
      if r = 0 then FP.zero x.isNeg else .num r

/-! ## Collaborators that are not part of the file -/

/-- The trait predicates of `traits.h` that gate the overloads of `Mod` and `RMod`. -/
structure Traits where
  isIntegral : Ty → Bool
  isFloat : Ty → Bool
  isDouble : Ty → Bool

/-- Modelled from the spec: the trait predicates of `traits.h` (absent from the sources),
with the meanings the specification gives them: `isIntegral` holds of the integer types,
`isFloat` of single precision and `isDouble` of double precision. -/
def stdTraits : Traits where
  isIntegral := fun t => match t with | .int _ => true | _ => false
  isFloat := fun t => match t with | .float => true | _ => false
  isDouble := fun t => match t with | .double => true | _ => false

/-- The C library `pow` on doubles, whose results are not fixed by the language. -/
abbrev PowFn := FP → FP → FP

/-! ## The operator structs, in source order -/

/-- Body `return ((TypeOut)a op (TypeOut)b);`: both operands are cast to the output type,
combined by the built-in operator, and the result is returned as `TypeOut`. -/
def castArith (op : ArithOp) (tout : Ty) (a b : Val) : Res Val := do
  let a' ← convert tout a
  let b' ← convert tout b
  let r ← arith op a' b'
  convert tout r

/-- Body `return ((double)a / (double)b);`. -/
def doubleDiv (tout : Ty) (a b : Val) : Res Val := do
  let a' ← convert .double a
  let b' ← convert .double b
  let r ← arith .div a' b'
  convert tout r

/-- Body `return floor((double)a / (double)b);`. -/
def doubleFloorDiv (tout : Ty) (a b : Val) : Res Val := do
  let a' ← convert .double a
  let b' ← convert .double b
  let r ← arith .div a' b'
  convert tout (.double (toDouble r).floor)

/-- Body `return pow((double)a, (double)b);`. -/
def doublePow (pow : PowFn) (tout : Ty) (a b : Val) : Res Val := do
  let a' ← convert .double a
  let b' ← convert .double b
  convert tout (.double (pow (toDouble a') (toDouble b')))

/-- Body `return (a op b);` for a comparison: the operands are compared as they are and
the `bool` is converted to the output type. -/
def cmpBody (op : CmpOp) (tout : Ty) (a b : Val) : Res Val := do
  let r ← compare op a b
  pure (ofBool tout r)

/-- Source `Add::operate`: `return ((TypeOut)x + (TypeOut)y);` -/
def Add.operate (tout : Ty) (x y : Val) : Res Val := castArith .add tout x y

/-- Source `Sub::operate`: `return ((TypeOut)x - (TypeOut)y);` -/
def Sub.operate (tout : Ty) (x y : Val) : Res Val := castArith .sub tout x y

/-- Source `RSub::operate`: `return ((TypeOut)y - (TypeOut)x);` -/
def RSub.operate (tout : Ty) (x y : Val) : Res Val := castArith .sub tout y x

/-- Source `Mul::operate`: `return ((TypeOut)x * (TypeOut)y);` -/
def Mul.operate (tout : Ty) (x y : Val) : Res Val := castArith .mul tout x y

/-- Source `Div::operate`: `return ((TypeOut)x / (TypeOut)y);` -/
def Div.operate (tout : Ty) (x y : Val) : Res Val := castArith .div tout x y

/-- Source `RDiv::operate`: `return ((TypeOut)y / (TypeOut)x);` -/
def RDiv.operate (tout : Ty) (x y : Val) : Res Val := castArith .div tout y x

/-- Source `TrueDiv::operate`: `return ((double)x / (double)y);` -/
def TrueDiv.operate (tout : Ty) (x y : Val) : Res Val := doubleDiv tout x y

/-- Source `RTrueDiv::operate`: `return ((double)y / (double)x);` -/
def RTrueDiv.operate (tout : Ty) (x y : Val) : Res Val := doubleDiv tout y x

/-- Source `FloorDiv::operate`: `return floor((double)x / (double)y);` -/
def FloorDiv.operate (tout : Ty) (x y : Val) : Res Val := doubleFloorDiv tout x y

/-- Source `RFloorDiv::operate`: `return floor((double)y / (double)x);` -/
def RFloorDiv.operate (tout : Ty) (x y : Val) : Res Val := doubleFloorDiv tout y x

/-- The three overloads of `Mod::operate` and of `RMod::operate`, in source order. -/
inductive ModBody where
  | integral
  | single
  | dbl
  deriving DecidableEq

/-- The `enableIf` guard of an overload, a condition on `TypeOut` alone. -/
def ModBody.guard (tr : Traits) (tout : Ty) : ModBody → Bool
  | .integral => tr.isIntegral tout
  | .single => tr.isFloat tout
  | .dbl => tr.isDouble tout

/-- The overloads whose guard holds for `TypeOut` (the others are removed from the
candidate set). -/
def viable (tr : Traits) (tout : Ty) : List ModBody :=
  [ModBody.integral, ModBody.single, ModBody.dbl].filter (fun b => b.guard tr tout)

/-- Overload resolution among the three identically-typed overloads: the call compiles
when exactly one of them is viable. -/
def selectOverload (tr : Traits) (tout : Ty) : Res ModBody :=
  match viable tr tout with
  | [b] => .ok b
  | _ => .error .illFormed

/-- The body of an overload: `(TypeOut)a % (TypeOut)b`, `fmodf((TypeOut)a, (TypeOut)b)` or
`fmod((TypeOut)a, (TypeOut)b)`. -/
def ModBody.run (tout : Ty) (a b : Val) : ModBody → Res Val
  | .integral => castArith .mod tout a b
  | .single => do
    let a' ← convert tout a
    let b' ← convert tout b
    convert tout (.float (FP.fmod (toFloat a') (toFloat b')))
  | .dbl => do
    let a' ← convert tout a
    let b' ← convert tout b
    convert tout (.double (FP.fmod (toDouble a') (toDouble b')))

/-- Source `Mod::operate`: the overload selected by `TypeOut`, applied to `(x, y)`. -/
def Mod.operate (tr : Traits) (tout : Ty) (x y : Val) : Res Val := do
  let b ← selectOverload tr tout
  b.run tout x y

/-- Source `RMod::operate`: the overload selected by `TypeOut`, applied to `(y, x)`. -/
def RMod.operate (tr : Traits) (tout : Ty) (x y : Val) : Res Val := do
  let b ← selectOverload tr tout
  b.run tout y x

/-- Source `Pow::operate`: `return pow((double)x, (double)y);` -/
def Pow.operate (pow : PowFn) (tout : Ty) (x y : Val) : Res Val := doublePow pow tout x y

/-- Source `RPow::operate`: `return pow((double)y, (double)x);` -/
def RPow.operate (pow : PowFn) (tout : Ty) (x y : Val) : Res Val := doublePow pow tout y x

/-- Source `Equal::operate`: `return (x == y);` -/
def Equal.operate (tout : Ty) (x y : Val) : Res Val := cmpBody .eq tout x y

/-- Source `NotEqual::operate`: `return (x != y);` -/
def NotEqual.operate (tout : Ty) (x y : Val) : Res Val := cmpBody .ne tout x y

/-- Source `Less::operate`: `return (x < y);` -/
def Less.operate (tout : Ty) (x y : Val) : Res Val := cmpBody .lt tout x y

/-- Source `RLess::operate`: `return (y < x);` -/
def RLess.operate (tout : Ty) (x y : Val) : Res Val := cmpBody .lt tout y x

/-- Source `Greater::operate`: `return (x > y);` -/
def Greater.operate (tout : Ty) (x y : Val) : Res Val := cmpBody .gt tout x y

/-- Source `RGreater::operate`: `return (y > x);` -/
def RGreater.operate (tout : Ty) (x y : Val) : Res Val := cmpBody .gt tout y x

/-- Source `LessEqual::operate`: `return (x <= y);` -/
def LessEqual.operate (tout : Ty) (x y : Val) : Res Val := cmpBody .le tout x y

/-- Source `RLessEqual::operate`: `return (y <= x);` -/
def RLessEqual.operate (tout : Ty) (x y : Val) : Res Val := cmpBody .le tout y x

/-- Source `GreaterEqual::operate`: `return (x >= y);` -/
def GreaterEqual.operate (tout : Ty) (x y : Val) : Res Val := cmpBody .ge tout x y

/-- Source `RGreaterEqual::operate`: `return (y >= x);` -/
def RGreaterEqual.operate (tout : Ty) (x y : Val) : Res Val := cmpBody .ge tout y x

/-! ## The catalogue: names, struct definitions and aliases -/

/-- The struct definitions of the file (one constructor per `struct`). -/
inductive OpStruct where
  | Add | Sub | RSub | Mul | Div | RDiv | TrueDiv | RTrueDiv | FloorDiv | RFloorDiv
  | Mod | RMod | Pow | RPow | Equal | NotEqual | Less | RLess | Greater | RGreater
  | LessEqual | RLessEqual | GreaterEqual | RGreaterEqual
  deriving DecidableEq

/-- The operator names the file declares: the structs and the four `using` aliases. -/
inductive OpName where
  | Add | RAdd | Sub | RSub | Mul | RMul | Div | RDiv | TrueDiv | RTrueDiv
  | FloorDiv | RFloorDiv | Mod | RMod | Pow | RPow | Equal | REqual | NotEqual | RNotEqual
  | Less | RLess | Greater | RGreater | LessEqual | RLessEqual | GreaterEqual | RGreaterEqual
  deriving DecidableEq

/-- The definition a name denotes: a struct name denotes its struct, and `using RAdd = Add`,
`using RMul = Mul`, `using REqual = Equal`, `using RNotEqual = NotEqual` denote the
forward struct. -/
def OpName.struct : OpName → OpStruct
  | .Add => .Add | .RAdd => .Add
  | .Sub => .Sub | .RSub => .RSub
  | .Mul => .Mul | .RMul => .Mul
  | .Div => .Div | .RDiv => .RDiv
  | .TrueDiv => .TrueDiv | .RTrueDiv => .RTrueDiv
  | .FloorDiv => .FloorDiv | .RFloorDiv => .RFloorDiv
  | .Mod => .Mod | .RMod => .RMod
  | .Pow => .Pow | .RPow => .RPow
  | .Equal => .Equal | .REqual => .Equal
  | .NotEqual => .NotEqual | .RNotEqual => .NotEqual
  | .Less => .Less | .RLess => .RLess
  | .Greater => .Greater | .RGreater => .RGreater
  | .LessEqual => .LessEqual | .RLessEqual => .RLessEqual
  | .GreaterEqual => .GreaterEqual | .RGreaterEqual => .RGreaterEqual

/-- The `operate` member of a struct. -/
def OpStruct.operate (tr : Traits) (pow : PowFn) : OpStruct → Ty → Val → Val → Res Val
  | .Add => Add.operate
  | .Sub => Sub.operate
  | .RSub => RSub.operate
  | .Mul => Mul.operate
  | .Div => Div.operate
  | .RDiv => RDiv.operate
  | .TrueDiv => TrueDiv.operate
  | .RTrueDiv => RTrueDiv.operate
  | .FloorDiv => FloorDiv.operate
  | .RFloorDiv => RFloorDiv.operate
  | .Mod => Mod.operate tr
  | .RMod => RMod.operate tr
  | .Pow => Pow.operate pow
  | .RPow => RPow.operate pow
  | .Equal => Equal.operate
  | .NotEqual => NotEqual.operate
  | .Less => Less.operate
  | .RLess => RLess.operate
  | .Greater => Greater.operate
  | .RGreater => RGreater.operate
  | .LessEqual => LessEqual.operate
  | .RLessEqual => RLessEqual.operate
  | .GreaterEqual => GreaterEqual.operate
  | .RGreaterEqual => RGreaterEqual.operate

/-- The call `Name::operate<TypeOut, TypeLhs, TypeRhs>(x, y)`. -/
def OpName.operate (tr : Traits) (pow : PowFn) (n : OpName) (tout : Ty) (x y : Val) :
    Res Val :=
  n.struct.operate tr pow tout x y

/-- The forward name a reflected name is the companion of (`none` for a forward name). -/
def OpName.forward? : OpName → Option OpName
  | .RAdd => some .Add | .RSub => some .Sub | .RMul => some .Mul | .RDiv => some .Div
  | .RTrueDiv => some .TrueDiv | .RFloorDiv => some .FloorDiv | .RMod => some .Mod
  | .RPow => some .Pow | .REqual => some .Equal | .RNotEqual => some .NotEqual
  | .RLess => some .Less | .RGreater => some .Greater | .RLessEqual => some .LessEqual
  | .RGreaterEqual => some .GreaterEqual
  | _ => none

/-- A reflected name is an alias when it denotes the very struct its forward name denotes. -/
def OpName.isAlias (n : OpName) : Bool :=
  match n.forward? with
  | some f => decide (n.struct = f.struct)
  | none => false

/-- The catalogue entry "`x + y` cast to `TypeOut`" read literally: the native sum of the
operands as they are (in their common type), converted to the output type afterwards. -/
def sumThenCast (tout : Ty) (x y : Val) : Res Val := do
  let r ← arith .add x y
  convert tout r

/-- Trait predicates of a pipeline without double precision: `isDouble` holds of no type. -/
def noDoubleTraits : Traits := { stdTraits with isDouble := fun _ => false }

/-- The claim's reading of `Div`: the quotient of the operands converted to `double`,
narrowed to the output type afterwards, `(TypeOut)((double)x / (double)y)`. -/
def quotInDoubleThenCast (tout : Ty) (x y : Val) : Res Val :=
  convert tout (.double (binary64.div (toDouble x) (toDouble y)))

/-- The one pair of converted operands whose quotient is not representable in the type the
division is carried out in: `MIN` and `-1` of a signed output type of at least 32 bits
(narrower types are divided in `int`, where the quotient of their values always fits). -/
def IntTy.QuotOverflows (t : IntTy) (a b : Int) : Prop :=
  t.isSigned = true ∧ 32 ≤ t.bits ∧ a = t.minVal ∧ b = -1

instance (t : IntTy) (a b : Int) : Decidable (t.QuotOverflows a b) := by
  unfold IntTy.QuotOverflows; infer_instance

/-! ## Reflected operators -/

/-- C1: every reflected struct of a non-commutative operator, applied to `(x, y)`, gives
exactly what the forward struct gives on `(y, x)`, for every output type, every operand
types and values: the same value, and a fault in exactly the same cases. -/
theorem C1_reflected_is_forward_swapped (tr : Traits) (pow : PowFn) (tout : Ty) (x y : Val) :
    RSub.operate tout x y = Sub.operate tout y x
    ∧ RDiv.operate tout x y = Div.operate tout y x
    ∧ RMod.operate tr tout x y = Mod.operate tr tout y x
    ∧ RTrueDiv.operate tout x y = TrueDiv.operate tout y x
    ∧ RFloorDiv.operate tout x y = FloorDiv.operate tout y x
    ∧ RPow.operate pow tout x y = Pow.operate pow tout y x
    ∧ RLess.operate tout x y = Less.operate tout y x
    ∧ RGreater.operate tout x y = Greater.operate tout y x
    ∧ RLessEqual.operate tout x y = LessEqual.operate tout y x
    ∧ RGreaterEqual.operate tout x y = GreaterEqual.operate tout y x :=
  ⟨rfl, rfl, rfl, rfl, rfl, rfl, rfl, rfl, rfl, rfl⟩

/-! ## Integer conversions -/

theorem IntTy.common_comm (a b : IntTy) : IntTy.common a b = IntTy.common b a := by
  cases a <;> cases b <;> decide

theorem IntTy.wrap_inRange (t : IntTy) (v : Int) : t.InRange (t.wrap v) := by
  cases t <;> simp [IntTy.InRange, IntTy.wrap, IntTy.minVal, IntTy.maxVal, IntTy.isSigned,
    IntTy.bits] <;> omega

theorem IntTy.wrap_of_inRange (t : IntTy) (v : Int) (h : t.InRange v) : t.wrap v = v := by
  cases t <;> simp [IntTy.InRange, IntTy.wrap, IntTy.minVal, IntTy.maxVal, IntTy.isSigned,
    IntTy.bits] at h ⊢ <;> omega

theorem IntTy.wrap_modEq (t : IntTy) (v : Int) : t.wrap v ≡ v [ZMOD 2 ^ t.bits] := by
  cases t <;> simp [IntTy.wrap, IntTy.isSigned, IntTy.bits, Int.ModEq] <;> omega

/-- Two representable values congruent modulo `2^bits` are equal. -/
theorem IntTy.eq_of_modEq (t : IntTy) (a b : Int) (ha : t.InRange a) (hb : t.InRange b)
    (h : a ≡ b [ZMOD 2 ^ t.bits]) : a = b := by
  cases t <;> simp [IntTy.InRange, IntTy.minVal, IntTy.maxVal, IntTy.isSigned,
    IntTy.bits, Int.ModEq] at ha hb h <;> omega

theorem IntTy.wrap_eq_of_modEq (t : IntTy) (a b : Int) (h : a ≡ b [ZMOD 2 ^ t.bits]) :
    t.wrap a = t.wrap b :=
  t.eq_of_modEq _ _ (t.wrap_inRange a) (t.wrap_inRange b)
    (((t.wrap_modEq a).trans h).trans (t.wrap_modEq b).symm)

theorem IntTy.common_self (a : IntTy) : IntTy.common a a = a := by
  simp [IntTy.common]

theorem IntTy.inRange_promote (t : IntTy) (v : Int) (h : t.InRange v) : t.promote.InRange v := by
  cases t <;> simp [IntTy.InRange, IntTy.promote, IntTy.minVal, IntTy.maxVal, IntTy.isSigned,
    IntTy.bits] at h ⊢ <;> omega

theorem IntTy.promote_wrap_wrap (t : IntTy) (v : Int) : t.promote.wrap (t.wrap v) = t.wrap v :=
  t.promote.wrap_of_inRange _ (t.inRange_promote _ (t.wrap_inRange v))

/-- Evaluation of `(TypeOut)a op (TypeOut)b` for an integer output type and integer
operands: the operation is carried out in the promoted output type on the wrapped
operands, and its result is wrapped to the output type. -/
theorem castArith_int (op : ArithOp) (t ta tb : IntTy) (a b : Int) :
    castArith op (.int t) (.int ta a) (.int tb b)
      = (intArith t.promote op (t.wrap a) (t.wrap b)).map (fun r => Val.int t (t.wrap r)) := by
  simp only [castArith, convert, toInt, Except.map, arith, Val.ty, commonTy, IntTy.common_self,
    bind, Except.bind, IntTy.promote_wrap_wrap, pure, Except.pure]
  cases intArith t.promote op (t.wrap a) (t.wrap b) <;> rfl




theorem cmpBody_int (op : CmpOp) (tout : Ty) (ta tb : IntTy) (a b : Int) :
    cmpBody op tout (.int ta a) (.int tb b)
      = .ok (ofBool tout (intCmp op ((IntTy.common ta.promote tb.promote).wrap a)
          ((IntTy.common ta.promote tb.promote).wrap b))) := by
  simp only [cmpBody, compare, Val.ty, commonTy, toInt, bind, Except.bind, pure, Except.pure]

/-- C2: `Add`, `Mul`, `Equal` and `NotEqual` are commutative on integers: for every integer
output type and all integer operands, swapping the operands does not change the result. -/
theorem C2_commutative_operators (t ta tb : IntTy) (a b : Int) :
    Add.operate (.int t) (.int ta a) (.int tb b) = Add.operate (.int t) (.int tb b) (.int ta a)
    ∧ Mul.operate (.int t) (.int ta a) (.int tb b) = Mul.operate (.int t) (.int tb b) (.int ta a)
    ∧ Equal.operate (.int t) (.int ta a) (.int tb b)
        = Equal.operate (.int t) (.int tb b) (.int ta a)
    ∧ NotEqual.operate (.int t) (.int ta a) (.int tb b)
        = NotEqual.operate (.int t) (.int tb b) (.int ta a) := by
  refine ⟨?_, ?_, ?_, ?_⟩
  · simp only [Add.operate, castArith_int, intArith, add_comm]
  · simp only [Mul.operate, castArith_int, intArith, mul_comm]
  · simp only [Equal.operate, cmpBody_int, intCmp, IntTy.common_comm tb.promote ta.promote,
      eq_comm]
  · simp only [NotEqual.operate, cmpBody_int, intCmp, IntTy.common_comm tb.promote ta.promote,
      ne_comm]


theorem neg_tmod_eq (a b : Int) : Int.tmod (-a) b = -Int.tmod a b := by
  rw [Int.tmod_def, Int.tmod_def, Int.neg_tdiv]; ring

/-- Sign and size of the truncated remainder. -/
theorem tmod_bounds (x y : Int) (hy : y ≠ 0) :
    |Int.tmod x y| < |y| ∧ (0 ≤ x → 0 ≤ Int.tmod x y) ∧ (x ≤ 0 → Int.tmod x y ≤ 0) := by
  have key : ∀ a b : Int, 0 ≤ a → 0 < b → 0 ≤ Int.tmod a b ∧ Int.tmod a b < b :=
    fun a b ha hb => ⟨Int.tmod_nonneg b ha, Int.tmod_lt_of_pos a hb⟩
  have hyabs : 0 < |y| := abs_pos.mpr hy
  rcases lt_trichotomy x 0 with hx | hx | hx
  · have h1 := key (-x) |y| (by omega) hyabs
    have h2 : Int.tmod (-x) |y| = -Int.tmod x y := by
      rcases abs_choice y with h | h <;> simp [h, neg_tmod_eq, Int.tmod_neg]
    rw [h2] at h1
    rw [abs_of_nonpos (by omega : Int.tmod x y ≤ 0)]
    exact ⟨by omega, fun h => by omega, fun _ => by omega⟩
  · subst hx; simp [hyabs]
  · have h1 := key x |y| (by omega) hyabs
    have h2 : Int.tmod x |y| = Int.tmod x y := by
      rcases abs_choice y with h | h <;> simp [h, Int.tmod_neg]
    rw [h2] at h1
    rw [abs_of_nonneg h1.1]
    exact ⟨h1.2, fun _ => h1.1, fun h => by omega⟩

theorem tdiv_natAbs_le_half (x y : Int) (hy : 2 ≤ y.natAbs) :
    (Int.tdiv x y).natAbs ≤ x.natAbs / 2 := by
  rw [Int.natAbs_tdiv]; exact Nat.div_le_div_left hy (by norm_num)

/-- A quotient of representable operands is representable, except for `MIN / -1`. -/
theorem IntTy.inRange_tdiv (t : IntTy) (x y : Int) (hx : t.InRange x) (hy : t.InRange y)
    (h0 : y ≠ 0) (hmin : ¬(x = t.minVal ∧ y = -1)) : t.InRange (Int.tdiv x y) := by
  by_cases h1 : y = 1
  · subst h1; simpa using hx
  by_cases hm1 : y = -1
  · subst hm1
    have : Int.tdiv x (-1) = -x := by simp
    rw [this]
    cases t <;> simp [IntTy.InRange, IntTy.minVal, IntTy.maxVal, IntTy.isSigned,
      IntTy.bits] at hx hy hmin ⊢ <;> omega
  have hy2 : 2 ≤ y.natAbs := by omega
  have hq := tdiv_natAbs_le_half x y hy2
  have hs : (0 ≤ x → 0 ≤ y → 0 ≤ Int.tdiv x y) := fun a b => Int.tdiv_nonneg a b
  cases t <;> simp [IntTy.InRange, IntTy.minVal, IntTy.maxVal, IntTy.isSigned,
      IntTy.bits] at hx hy hmin ⊢ <;> omega

theorem truncQ_div (x y : Int) (hy : y ≠ 0) : truncQ ((x : ℚ) / (y : ℚ)) = Int.tdiv x y := by
  have hb := tmod_bounds x y hy
  have hdef : (x : ℚ) = (Int.tdiv x y : ℚ) * y + (Int.tmod x y : ℚ) := by
    have := Int.tdiv_add_tmod' x y
    exact_mod_cast this.symm
  have hyq : (y : ℚ) ≠ 0 := by exact_mod_cast hy
  have hquot : (x : ℚ) / y = Int.tdiv x y + (Int.tmod x y : ℚ) / y := by
    field_simp; linarith
  have hlt : |(Int.tmod x y : ℚ) / y| < 1 := by
    rw [abs_div, div_lt_one (abs_pos.mpr hyq)]
    exact_mod_cast hb.1
  rw [abs_lt] at hlt
  by_cases hq : 0 ≤ (x : ℚ) / y
  · have hr : 0 ≤ (Int.tmod x y : ℚ) / y := by
      rcases lt_or_gt_of_ne hy with h | h
      · have hx : x ≤ 0 := by
          by_contra hc
          have : (x : ℚ) / y < 0 :=
            div_neg_of_pos_of_neg (by exact_mod_cast (not_le.mp hc)) (by exact_mod_cast h)
          linarith
        exact div_nonneg_of_nonpos (by exact_mod_cast hb.2.2 hx) (by exact_mod_cast h.le)
      · have hx : 0 ≤ x := by
          by_contra hc
          have : (x : ℚ) / y < 0 :=
            div_neg_of_neg_of_pos (by exact_mod_cast (not_le.mp hc)) (by exact_mod_cast h)
          linarith
        exact div_nonneg (by exact_mod_cast hb.2.1 hx) (by exact_mod_cast h.le)
    rw [truncQ, if_pos hq, Int.floor_eq_iff]
    constructor <;> linarith
  · have hq' : (x : ℚ) / y < 0 := not_le.mp hq
    have hr : (Int.tmod x y : ℚ) / y ≤ 0 := by
      rcases lt_or_gt_of_ne hy with h | h
      · have hx : 0 ≤ x := by
          by_contra hc
          have : 0 < (x : ℚ) / y :=
            div_pos_of_neg_of_neg (by exact_mod_cast (not_le.mp hc)) (by exact_mod_cast h)
          linarith
        exact div_nonpos_of_nonneg_of_nonpos (by exact_mod_cast hb.2.1 hx) (by exact_mod_cast h.le)
      · have hx : x ≤ 0 := by
          by_contra hc
          have : 0 < (x : ℚ) / y :=
            div_pos (by exact_mod_cast (not_le.mp hc)) (by exact_mod_cast h)
          linarith
        exact div_nonpos_of_nonpos_of_nonneg (by exact_mod_cast hb.2.2 hx) (by exact_mod_cast h.le)
    rw [truncQ, if_neg hq, Int.ceil_eq_iff]
    constructor <;> linarith


theorem IntTy.inRange_tmod (t : IntTy) (x y : Int) (hx : t.InRange x) (hy : t.InRange y)
    (h0 : y ≠ 0) : t.InRange (Int.tmod x y) := by
  obtain ⟨h1, h2, h3⟩ := tmod_bounds x y h0
  rw [abs_lt] at h1
  rcases abs_cases y with ⟨ha, _⟩ | ⟨ha, _⟩ <;> rw [ha] at h1 <;>
  cases t <;> simp [IntTy.InRange, IntTy.minVal, IntTy.maxVal, IntTy.isSigned,
      IntTy.bits] at hx hy ⊢ <;> omega

/-- Evaluation of `Div` on integer operands representable in an integer output type. -/
theorem Div_int_eval (t tx ty : IntTy) (x y : Int) (hx : t.InRange x) (hy : t.InRange y)
    (h0 : y ≠ 0) (hmin : ¬(x = t.minVal ∧ y = -1)) :
    Div.operate (.int t) (.int tx x) (.int ty y) = .ok (.int t (Int.tdiv x y)) := by
  have hq := t.inRange_tdiv x y hx hy h0 hmin
  rw [Div.operate, castArith_int, t.wrap_of_inRange x hx, t.wrap_of_inRange y hy]
  simp only [intArith, if_neg h0, if_pos (t.inRange_promote _ hq), Except.map,
    t.wrap_of_inRange _ hq]

/-- Evaluation of the integral body of `Mod` on integer operands representable in an integer
output type. -/
theorem Mod_int_eval (tr : Traits) (t tx ty : IntTy) (x y : Int)
    (hI : tr.isIntegral (.int t) = true) (hF : tr.isFloat (.int t) = false)
    (hD : tr.isDouble (.int t) = false) (hx : t.InRange x) (hy : t.InRange y)
    (h0 : y ≠ 0) (hmin : ¬(x = t.minVal ∧ y = -1)) :
    Mod.operate tr (.int t) (.int tx x) (.int ty y) = .ok (.int t (Int.tmod x y)) := by
  have hq := t.inRange_tdiv x y hx hy h0 hmin
  have hr := t.inRange_tmod x y hx hy h0
  have hsel : selectOverload tr (.int t) = .ok .integral := by
    simp [selectOverload, viable, ModBody.guard, hI, hF, hD]
  simp only [Mod.operate, hsel, bind, Except.bind, ModBody.run]
  rw [castArith_int, t.wrap_of_inRange x hx, t.wrap_of_inRange y hy]
  simp only [intArith, if_neg h0, if_pos (t.inRange_promote _ hq), Except.map,
    t.wrap_of_inRange _ hr]

/-- C3: the reflected names of the commutative operators denote the very definition of the
forward names (`RAdd = Add`, `RMul = Mul`, `REqual = Equal`, `RNotEqual = NotEqual`), so
they agree on every input, and no other reflected name of the catalogue is an alias. -/
theorem C3_commutative_reflected_names_are_aliases (tr : Traits) (pow : PowFn) (tout : Ty)
    (x y : Val) :
    (OpName.RAdd.struct = OpName.Add.struct ∧ OpName.RMul.struct = OpName.Mul.struct
      ∧ OpName.REqual.struct = OpName.Equal.struct
      ∧ OpName.RNotEqual.struct = OpName.NotEqual.struct)
    ∧ (OpName.RAdd.operate tr pow tout x y = OpName.Add.operate tr pow tout x y
      ∧ OpName.RMul.operate tr pow tout x y = OpName.Mul.operate tr pow tout x y
      ∧ OpName.REqual.operate tr pow tout x y = OpName.Equal.operate tr pow tout x y
      ∧ OpName.RNotEqual.operate tr pow tout x y = OpName.NotEqual.operate tr pow tout x y)
    ∧ (∀ n : OpName, n.isAlias = true
        ↔ n = .RAdd ∨ n = .RMul ∨ n = .REqual ∨ n = .RNotEqual) :=
  ⟨⟨rfl, rfl, rfl, rfl⟩, ⟨rfl, rfl, rfl, rfl⟩, fun n => by cases n <;> decide⟩

/-- C4: for an integer output type (in particular every signed one) and operands
representable in it, with a non-zero divisor and not the pair `MIN, -1`, `Div` returns the
mathematical quotient `x / y` truncated toward zero; `Div<int>(7, 2)` is 3 and
`Div<int>(-7, 2)` is -3 (not the floor, -4). -/
theorem C4_div_truncates_toward_zero (t tx ty : IntTy) (x y : Int) (hx : t.InRange x)
    (hy : t.InRange y) (h0 : y ≠ 0) (hmin : ¬(x = t.minVal ∧ y = -1)) :
    Div.operate (.int t) (.int tx x) (.int ty y)
        = .ok (.int t (truncQ ((x : ℚ) / (y : ℚ))))
    ∧ Div.operate (.int .int32) (.int .int32 7) (.int .int32 2) = .ok (.int .int32 3)
    ∧ Div.operate (.int .int32) (.int .int32 (-7)) (.int .int32 2) = .ok (.int .int32 (-3)) := by
  refine ⟨?_, by decide, by decide⟩
  rw [truncQ_div x y h0]
  exact Div_int_eval t tx ty x y hx hy h0 hmin

theorem C4_div_truncates_toward_zero_witness :
    IntTy.int32.InRange (-7) ∧ IntTy.int32.InRange 2 ∧ (2 : Int) ≠ 0
    ∧ ¬((-7 : Int) = IntTy.int32.minVal ∧ (2 : Int) = -1)
    ∧ Div.operate (.int .int32) (.int .int32 (-7)) (.int .int32 2)
        = .ok (.int .int32 (truncQ (((-7 : Int) : ℚ) / ((2 : Int) : ℚ)))) :=
  ⟨by decide, by decide, by decide, by decide,
    (C4_div_truncates_toward_zero .int32 .int32 .int32 (-7) 2 (by decide) (by decide)
      (by decide) (by decide)).1⟩

/-- C5: for an integer output type and operands representable in it, with a non-zero divisor
and not the pair `MIN, -1`, `Mod` returns the remainder of the truncated division:
`x = Div(x, y) * y + Mod(x, y)`, `|Mod(x, y)| < |y|`, and the remainder is zero or has the
sign of `x`; `Mod<int>(7, 3)` is 1. -/
theorem C5_mod_is_truncated_remainder (tr : Traits) (t tx ty : IntTy) (x y : Int)
    (hI : tr.isIntegral (.int t) = true) (hF : tr.isFloat (.int t) = false)
    (hD : tr.isDouble (.int t) = false) (hx : t.InRange x) (hy : t.InRange y)
    (h0 : y ≠ 0) (hmin : ¬(x = t.minVal ∧ y = -1)) :
    (∃ q r : Int,
      Div.operate (.int t) (.int tx x) (.int ty y) = .ok (.int t q)
      ∧ Mod.operate tr (.int t) (.int tx x) (.int ty y) = .ok (.int t r)
      ∧ x = q * y + r ∧ |r| < |y| ∧ (r = 0 ∨ Int.sign r = Int.sign x))
    ∧ Mod.operate stdTraits (.int .int32) (.int .int32 7) (.int .int32 3)
        = .ok (.int .int32 1) := by
  refine ⟨⟨Int.tdiv x y, Int.tmod x y, Div_int_eval t tx ty x y hx hy h0 hmin,
    Mod_int_eval tr t tx ty x y hI hF hD hx hy h0 hmin, (Int.tdiv_add_tmod' x y).symm, ?_, ?_⟩,
    by decide⟩
  · exact (tmod_bounds x y h0).1
  · obtain ⟨_, h2, h3⟩ := tmod_bounds x y h0
    by_cases hr : Int.tmod x y = 0
    · exact Or.inl hr
    · right
      rcases lt_trichotomy x 0 with hx0 | hx0 | hx0
      · rw [Int.sign_eq_neg_one_of_neg hx0, Int.sign_eq_neg_one_of_neg]
        have := h3 hx0.le; omega
      · subst hx0; simp at hr
      · rw [Int.sign_eq_one_of_pos hx0, Int.sign_eq_one_of_pos]
        have := h2 hx0.le; omega

theorem C5_mod_is_truncated_remainder_witness :
    stdTraits.isIntegral (.int .int32) = true ∧ stdTraits.isFloat (.int .int32) = false
    ∧ stdTraits.isDouble (.int .int32) = false
    ∧ IntTy.int32.InRange (-7) ∧ IntTy.int32.InRange 3 ∧ (3 : Int) ≠ 0
    ∧ ¬((-7 : Int) = IntTy.int32.minVal ∧ (3 : Int) = -1)
    ∧ ∃ q r : Int,
      Div.operate (.int .int32) (.int .int32 (-7)) (.int .int32 3) = .ok (.int .int32 q)
      ∧ Mod.operate stdTraits (.int .int32) (.int .int32 (-7)) (.int .int32 3)
          = .ok (.int .int32 r)
      ∧ (-7 : Int) = q * 3 + r ∧ |r| < |(3 : Int)| ∧ (r = 0 ∨ Int.sign r = Int.sign (-7)) :=
  ⟨rfl, rfl, rfl, by decide, by decide, by decide, by decide,
    (C5_mod_is_truncated_remainder stdTraits .int32 .int32 .int32 (-7) 3 rfl rfl rfl
      (by decide) (by decide) (by decide) (by decide)).1⟩


/-! ## Floating-point rounding -/

theorem roundHalfEven_intCast (n : Int) : roundHalfEven (n : ℚ) = n := by
  simp [roundHalfEven]

theorem roundHalfEven_err (x : ℚ) : |(roundHalfEven x : ℚ) - x| ≤ 1 / 2 := by
  have h1 := Int.floor_le x
  have h2 := Int.lt_floor_add_one x
  unfold roundHalfEven
  simp only
  split_ifs with ha hb hc
  · rw [abs_le]; constructor <;> linarith
  · rw [abs_le]; push_cast; constructor <;> linarith
  · rw [abs_le]; constructor <;> linarith
  · rw [abs_le]; push_cast; constructor <;> linarith

theorem Fmt.ulp_pos (f : Fmt) (q : ℚ) : 0 < f.ulp q := by
  unfold Fmt.ulp; positivity


theorem log_le_of_lt_zpow (q : ℚ) (E : Int) (hq : 0 < q) (h : q < 2 ^ (E + 1)) :
    Int.log 2 q ≤ E := by
  have h' : q < ((2 : ℕ) : ℚ) ^ (E + 1) := by simpa using h
  have := (Int.lt_zpow_iff_log_lt (by norm_num : 1 < 2) hq).mp h'
  omega

theorem le_log_of_zpow_le (q : ℚ) (E : Int) (hq : 0 < q) (h : 2 ^ E ≤ q) :
    E ≤ Int.log 2 q := by
  have h' : ((2 : ℕ) : ℚ) ^ E ≤ q := by simpa using h
  exact (Int.zpow_le_iff_le_log (by norm_num : 1 < 2) hq).mp h'

theorem zpow_log_le (q : ℚ) (hq : 0 < q) : (2 : ℚ) ^ Int.log 2 q ≤ q := by
  simpa using Int.zpow_log_le_self (b := 2) (by norm_num : 1 < 2) hq

/-- A number `m * 2 ^ k` on the format's grid, below the overflow threshold, rounds to
itself. -/
theorem Fmt.round_exact (f : Fmt) (q : ℚ) (m k E : Int) (hq0 : q ≠ 0) (hq : q = m * 2 ^ k)
    (hE : |q| < 2 ^ (E + 1)) (hEmax : E ≤ f.emax)
    (hk : max E f.emin - ((f.prec : Int) - 1) ≤ k) : f.round q = .num q := by
  have hpos : 0 < |q| := abs_pos.mpr hq0
  have hlog : Int.log 2 |q| ≤ E := log_le_of_lt_zpow _ _ hpos hE
  have hj : 0 ≤ k - (max (Int.log 2 |q|) f.emin - ((f.prec : Int) - 1)) := by
    have : max (Int.log 2 |q|) f.emin ≤ max E f.emin := max_le_max hlog le_rfl
    omega
  obtain ⟨n, hn⟩ := Int.eq_ofNat_of_zero_le hj
  have hdiv : q / f.ulp q = ((m * 2 ^ n : Int) : ℚ) := by
    unfold Fmt.ulp
    rw [hq, mul_div_assoc, ← zpow_sub₀ (by norm_num : (2 : ℚ) ≠ 0), ← hq, hn]
    push_cast
    rw [zpow_natCast]
  have hr : (roundHalfEven (q / f.ulp q) : ℚ) * f.ulp q = q := by
    rw [hdiv, roundHalfEven_intCast, ← hdiv]
    exact div_mul_cancel₀ _ (f.ulp_pos q).ne'
  have hno : ¬ (2 : ℚ) ^ (f.emax + 1) ≤ |q| := by
    have : (2 : ℚ) ^ (E + 1) ≤ 2 ^ (f.emax + 1) :=
      zpow_le_zpow_right₀ (by norm_num) (by omega)
    linarith
  simp only [Fmt.round, if_neg hq0, hr, if_neg hno, hq0, false_and, if_false]

theorem binary64_round_intCast (n : Int) (h : |n| < 2 ^ 53) :
    binary64.round (n : ℚ) = .num n := by
  by_cases h0 : n = 0
  · subst h0; simp [Fmt.round]
  · refine binary64.round_exact (n : ℚ) n 0 52 (by exact_mod_cast h0) (by simp) ?_ (by decide)
      (by decide)
    rw [show ((52 : Int) + 1) = ((53 : ℕ) : Int) by norm_num, zpow_natCast]
    exact_mod_cast h


/-- Rounding error of the format, relative to the grid spacing. -/
theorem Fmt.round_err (f : Fmt) (q : ℚ) :
    |(roundHalfEven (q / f.ulp q) : ℚ) * f.ulp q - q| ≤ f.ulp q / 2 := by
  have hu := f.ulp_pos q
  have h := roundHalfEven_err (q / f.ulp q)
  have e : (roundHalfEven (q / f.ulp q) : ℚ) * f.ulp q - q
      = ((roundHalfEven (q / f.ulp q) : ℚ) - q / f.ulp q) * f.ulp q := by
    field_simp
  rw [e, abs_mul, abs_of_pos hu]
  calc |(roundHalfEven (q / f.ulp q) : ℚ) - q / f.ulp q| * f.ulp q
      ≤ 1 / 2 * f.ulp q := mul_le_mul_of_nonneg_right h hu.le
    _ = f.ulp q / 2 := by ring

/-- A quotient of integers that is not an integer stays at least `1 / |y|` away from
every integer. -/
theorem quot_sub_int_ge (x y k : Int) (hy : y ≠ 0) (hne : (x : ℚ) / y ≠ k) :
    1 / |(y : ℚ)| ≤ |(x : ℚ) / y - k| := by
  have hyq : (y : ℚ) ≠ 0 := by exact_mod_cast hy
  have e : (x : ℚ) / y - k = ((x - k * y : Int) : ℚ) / y := by
    push_cast; field_simp; ring
  have hnz : x - k * y ≠ 0 := by
    intro h0
    apply hne
    have : (x : ℚ) = k * y := by
      have : x = k * y := by omega
      exact_mod_cast this
    rw [this]; field_simp
  have h1 : (1 : ℚ) ≤ |((x - k * y : Int) : ℚ)| := by
    have : (1 : Int) ≤ |x - k * y| := Int.one_le_abs hnz
    exact_mod_cast this
  rw [e, abs_div]
  exact div_le_div_of_nonneg_right h1 (abs_nonneg _)


/-- Rounding the quotient of two integers below `2 ^ 53` in magnitude to `double` yields a
finite number in the same unit interval of integers as the exact quotient. -/
theorem binary64_round_quot (x y : Int) (hx0 : x ≠ 0) (hy0 : y ≠ 0) (hx : |x| < 2 ^ 53)
    (hy : |y| < 2 ^ 53) :
    ∃ r : ℚ, binary64.round ((x : ℚ) / y) = .num r ∧ ⌊r⌋ = ⌊(x : ℚ) / y⌋
      ∧ ⌈r⌉ = ⌈(x : ℚ) / y⌉ := by
  have hxq : (x : ℚ) ≠ 0 := by exact_mod_cast hx0
  have hyq : (y : ℚ) ≠ 0 := by exact_mod_cast hy0
  have hq0 : (x : ℚ) / y ≠ 0 := div_ne_zero hxq hyq
  have hya : (1 : ℚ) ≤ |(y : ℚ)| := by exact_mod_cast Int.one_le_abs hy0
  have hxa : (1 : ℚ) ≤ |(x : ℚ)| := by exact_mod_cast Int.one_le_abs hx0
  have hxb : |(x : ℚ)| < 2 ^ 53 := by exact_mod_cast hx
  have hyb : |(y : ℚ)| < 2 ^ 53 := by exact_mod_cast hy
  have hypos : 0 < |(y : ℚ)| := by linarith
  have hqabs : |(x : ℚ) / y| = |(x : ℚ)| / |(y : ℚ)| := abs_div _ _
  by_cases hint : (x : ℚ) / y = (⌊(x : ℚ) / y⌋ : ℚ)
  · -- the quotient is an integer: it is representable
    have hle : |(x : ℚ) / y| ≤ |(x : ℚ)| := by
      rw [hqabs]; exact div_le_self (abs_nonneg _) hya
    have hn : |⌊(x : ℚ) / y⌋| < 2 ^ 53 := by
      have : |(⌊(x : ℚ) / y⌋ : ℚ)| < 2 ^ 53 := by rw [← hint]; linarith
      exact_mod_cast this
    refine ⟨(x : ℚ) / y, ?_, rfl, rfl⟩
    rw [hint]
    exact binary64_round_intCast _ hn
  · -- otherwise the rounding error is smaller than the distance to the nearest integers
    set q : ℚ := (x : ℚ) / y with hqdef
    have hqpos : 0 < |q| := abs_pos.mpr hq0
    have hlow : (2 : ℚ) ^ (-53 : Int) ≤ |q| := by
      rw [hqabs, zpow_neg, show ((53 : Int)) = ((53 : ℕ) : Int) by norm_num, zpow_natCast,
        inv_eq_one_div]
      exact div_le_div₀ (abs_nonneg _) hxa hypos hyb.le
    have hlog : binary64.emin ≤ Int.log 2 |q| := by
      have := le_log_of_zpow_le _ _ hqpos hlow
      have he : binary64.emin = -1022 := by decide
      omega
    have hu : binary64.ulp q = 2 ^ Int.log 2 |q| / 2 ^ 52 := by
      unfold Fmt.ulp
      rw [max_eq_left hlog, zpow_sub₀ (by norm_num : (2 : ℚ) ≠ 0)]
      norm_num [binary64]
    have hule : binary64.ulp q ≤ |q| / 2 ^ 52 := by
      rw [hu]
      exact div_le_div_of_nonneg_right (zpow_log_le _ hqpos) (by positivity)
    have herr := binary64.round_err q
    set r : ℚ := (roundHalfEven (q / binary64.ulp q) : ℚ) * binary64.ulp q with hr
    have hgap : |r - q| < 1 / |(y : ℚ)| := by
      have h1 : |r - q| ≤ |q| / 2 ^ 53 := by
        have : |q| / 2 ^ 52 / 2 = |q| / 2 ^ 53 := by ring
        linarith
      have h2 : |q| / 2 ^ 53 < 1 / |(y : ℚ)| := by
        rw [hqabs, div_div, div_lt_div_iff₀ (by positivity) hypos]
        nlinarith
      linarith
    have hfl := Int.floor_le q
    have hfl' := Int.lt_floor_add_one q
    have hlt : (⌊q⌋ : ℚ) < q := lt_of_le_of_ne hfl (Ne.symm hint)
    have hne2 : q ≠ ((⌊q⌋ + 1 : Int) : ℚ) := by
      intro h
      have := Int.floor_intCast (α := ℚ) (⌊q⌋ + 1)
      rw [← h] at this
      omega
    have g1 := quot_sub_int_ge x y ⌊q⌋ hy0 hint
    have g2 := quot_sub_int_ge x y (⌊q⌋ + 1) hy0 hne2
    rw [← hqdef] at g1 g2
    rw [abs_of_pos (by linarith : 0 < q - (⌊q⌋ : ℚ))] at g1
    rw [abs_of_neg (by push_cast; linarith : q - ((⌊q⌋ + 1 : Int) : ℚ) < 0)] at g2
    push_cast at g2
    rw [abs_lt] at hgap
    have hr1 : (⌊q⌋ : ℚ) < r := by linarith
    have hr2 : r < (⌊q⌋ : ℚ) + 1 := by linarith
    have hr0 : r ≠ 0 := by
      intro h0
      rw [h0] at hr1 hr2
      have a1 : ⌊q⌋ < 0 := by exact_mod_cast hr1
      have a2 : (0 : Int) < ⌊q⌋ + 1 := by exact_mod_cast hr2
      omega
    have hrabs : |r| < 2 ^ 54 := by
      have hq53 : |q| < 2 ^ 53 := by
        have : |q| ≤ |(x : ℚ)| := by rw [hqabs]; exact div_le_self (abs_nonneg _) hya
        linarith
      have hd : 1 / |(y : ℚ)| ≤ 1 := by
        rw [div_le_one hypos]; exact hya
      have : |r| ≤ |r - q| + |q| := by
        have := abs_add (r - q) q
        simpa using this
      have : |r - q| < 1 := by rw [abs_lt]; constructor <;> linarith
      norm_num at *
      linarith
    have hno : ¬ (2 : ℚ) ^ (binary64.emax + 1) ≤ |r| := by
      have : (2 : ℚ) ^ ((54 : ℕ) : Int) ≤ 2 ^ (binary64.emax + 1) :=
        zpow_le_zpow_right₀ (by norm_num) (by decide)
      rw [zpow_natCast] at this
      linarith
    refine ⟨r, ?_, ?_, ?_⟩
    · simp only [Fmt.round, if_neg hq0, ← hr, if_neg hno, hr0, false_and, if_false]
    · rw [Int.floor_eq_iff]; exact ⟨hr1.le, hr2⟩
    · have hc : ⌈q⌉ = ⌊q⌋ + 1 :=
        Int.ceil_eq_iff.mpr ⟨by push_cast; linarith, by push_cast; linarith⟩
      rw [Int.ceil_eq_iff, hc]
      push_cast
      constructor <;> linarith


/-- The expression `(double)a / (double)b` on arbitrary operands. -/
theorem double_quot_eval (a b : Val) :
    (do
      let a' ← convert .double a
      let b' ← convert .double b
      arith .div a' b' : Res Val)
      = .ok (.double (binary64.div (toDouble a) (toDouble b))) := by
  simp [convert, arith, Val.ty, commonTy, fpArith, toDouble, Except.map, bind, Except.bind]

/-- Evaluation of `TrueDiv` on arbitrary operands. -/
theorem TrueDiv_eval (tout : Ty) (a b : Val) :
    TrueDiv.operate tout a b
      = convert tout (.double (binary64.div (toDouble a) (toDouble b))) := by
  simp [TrueDiv.operate, doubleDiv, convert, arith, Val.ty, commonTy, fpArith, toDouble,
    Except.map, bind, Except.bind]

/-- Evaluation of `FloorDiv` on arbitrary operands. -/
theorem FloorDiv_eval (tout : Ty) (a b : Val) :
    FloorDiv.operate tout a b
      = convert tout (.double (binary64.div (toDouble a) (toDouble b)).floor) := by
  simp [FloorDiv.operate, doubleFloorDiv, convert, arith, Val.ty, commonTy, fpArith, toDouble,
    Except.map, bind, Except.bind]

/-- The `double` quotient of two integers below `2 ^ 53` in magnitude is the rational
quotient, correctly rounded. -/
theorem binary64_div_int (tx ty : IntTy) (x y : Int) (hx : |x| < 2 ^ 53) (hy : |y| < 2 ^ 53)
    (h0 : y ≠ 0) :
    binary64.div (toDouble (.int tx x)) (toDouble (.int ty y))
      = binary64.roundSigned (xor (decide (x < 0)) (decide (y < 0))) ((x : ℚ) / y) := by
  have hyq : (y : ℚ) ≠ 0 := by exact_mod_cast h0
  have ex : toDouble (.int tx x) = .num x := binary64_round_intCast x hx
  have ey : toDouble (.int ty y) = .num y := binary64_round_intCast y hy
  rw [ex, ey]
  simp [Fmt.div, FP.toRat?, FP.isNeg, hyq]

theorem IntTy.abs_lt_of_bits_le (t : IntTy) (v : Int) (hb : t.bits ≤ 32) (hv : t.InRange v) :
    |v| < 2 ^ 53 := by
  rw [abs_lt]
  cases t <;> simp [IntTy.InRange, IntTy.minVal, IntTy.maxVal, IntTy.isSigned,
    IntTy.bits] at hb hv ⊢ <;> omega

/-- Evaluation of `FloorDiv<double>` on integers below `2 ^ 53` in magnitude. -/
theorem FloorDiv_double_int (tx ty : IntTy) (x y : Int) (hx : |x| < 2 ^ 53)
    (hy : |y| < 2 ^ 53) (h0 : y ≠ 0) :
    FloorDiv.operate .double (.int tx x) (.int ty y)
      = .ok (.double (if x = 0 ∧ y < 0 then .negZero else .num (⌊(x : ℚ) / y⌋ : Int))) := by
  rw [FloorDiv_eval, binary64_div_int tx ty x y hx hy h0]
  have hyq : (y : ℚ) ≠ 0 := by exact_mod_cast h0
  by_cases hx0 : x = 0
  · subst hx0
    by_cases hneg : y < 0 <;>
      simp [convert, toDouble, Fmt.roundSigned, FP.zero, FP.floor, hneg]
  · have hq0 : (x : ℚ) / y ≠ 0 := div_ne_zero (by exact_mod_cast hx0) hyq
    obtain ⟨r, hr, hfl, _⟩ := binary64_round_quot x y hx0 h0 hx hy
    simp [convert, toDouble, Fmt.roundSigned, hq0, hr, FP.floor, hfl, hx0]


theorem binary64_round_seven_halves : binary64.round (7 / 2) = .num (7 / 2) := by
  refine binary64.round_exact (7 / 2) 7 (-1) 1 (by norm_num) ?_ ?_ (by decide) (by decide)
  · rw [zpow_neg, zpow_one]; norm_num
  · rw [show ((1 : Int) + 1) = ((2 : ℕ) : Int) by norm_num, zpow_natCast, abs_lt]
    constructor <;> norm_num

/-- C6: `FloorDiv` floors the quotient: for integer operands of at most 32 bits and a
non-zero divisor, `FloorDiv<double>(x, y)` is the finite double whose value is the
mathematical floor of `x / y` (the number `⌊x / y⌋` itself, or the negative zero when
`x = 0` is divided by a negative `y`); `FloorDiv<double>(-7, 2)` is `-4.0`. -/
theorem C6_floordiv_double_is_floor (tx ty : IntTy) (x y : Int) (hbx : tx.bits ≤ 32)
    (hby : ty.bits ≤ 32) (hx : tx.InRange x) (hy : ty.InRange y) (h0 : y ≠ 0) :
    (∃ r : FP, FloorDiv.operate .double (.int tx x) (.int ty y) = .ok (.double r)
      ∧ r.toRat? = some ((⌊(x : ℚ) / y⌋ : Int) : ℚ)
      ∧ (r = .num (⌊(x : ℚ) / y⌋ : Int) ∨ (r = .negZero ∧ x = 0 ∧ y < 0)))
    ∧ FloorDiv.operate .double (.int .int32 (-7)) (.int .int32 2) = .ok (.double (.num (-4))) := by
  constructor
  · have h := FloorDiv_double_int tx ty x y (tx.abs_lt_of_bits_le x hbx hx)
      (ty.abs_lt_of_bits_le y hby hy) h0
    by_cases hc : x = 0 ∧ y < 0
    · rw [if_pos hc] at h
      refine ⟨.negZero, h, ?_, Or.inr ⟨rfl, hc⟩⟩
      simp [FP.toRat?, hc.1]
    · rw [if_neg hc] at h
      exact ⟨_, h, rfl, Or.inl rfl⟩
  · have h := FloorDiv_double_int .int32 .int32 (-7) 2 (by decide) (by decide) (by decide)
    have hf : ⌊((-7 : Int) : ℚ) / ((2 : Int) : ℚ)⌋ = -4 := by
      rw [Int.floor_eq_iff]; norm_num
    rw [hf] at h
    simpa using h

theorem C6_floordiv_double_is_floor_witness :
    IntTy.int32.bits ≤ 32 ∧ IntTy.uint32.bits ≤ 32 ∧ IntTy.int32.InRange (-7)
    ∧ IntTy.uint32.InRange 2 ∧ (2 : Int) ≠ 0
    ∧ ∃ r : FP, FloorDiv.operate .double (.int .int32 (-7)) (.int .uint32 2) = .ok (.double r)
      ∧ r.toRat? = some ((⌊((-7 : Int) : ℚ) / ((2 : Int) : ℚ)⌋ : Int) : ℚ)
      ∧ (r = .num (⌊((-7 : Int) : ℚ) / ((2 : Int) : ℚ)⌋ : Int)
          ∨ (r = .negZero ∧ (-7 : Int) = 0 ∧ (2 : Int) < 0)) :=
  ⟨by decide, by decide, by decide, by decide, by decide,
    (C6_floordiv_double_is_floor .int32 .uint32 (-7) 2 (by decide) (by decide) (by decide)
      (by decide) (by decide)).1⟩

/-- C7: `TrueDiv` converts both operands to `double`, divides there, and only then narrows
the quotient to `TypeOut`, whatever the output and operand types are; on integers (below
`2 ^ 53` in magnitude, non-zero divisor) the `double` result is the correctly rounded
rational quotient, never an integer quotient; `TrueDiv<double>(7, 2)` is `3.5`. -/
theorem C7_truediv_divides_in_double (tout : Ty) (a b : Val) (tx ty : IntTy) (x y : Int)
    (hx : |x| < 2 ^ 53) (hy : |y| < 2 ^ 53) (h0 : y ≠ 0) :
    TrueDiv.operate tout a b = convert tout (.double (binary64.div (toDouble a) (toDouble b)))
    ∧ TrueDiv.operate .double (.int tx x) (.int ty y)
        = .ok (.double (binary64.roundSigned (xor (decide (x < 0)) (decide (y < 0)))
            ((x : ℚ) / y)))
    ∧ TrueDiv.operate .double (.int .int32 7) (.int .int32 2) = .ok (.double (.num (7 / 2))) := by
  refine ⟨TrueDiv_eval tout a b, ?_, ?_⟩
  · rw [TrueDiv_eval, binary64_div_int tx ty x y hx hy h0]
    simp [convert, toDouble]
  · rw [TrueDiv_eval, binary64_div_int .int32 .int32 7 2 (by decide) (by decide) (by decide)]
    have : ((7 : Int) : ℚ) / ((2 : Int) : ℚ) = 7 / 2 := by norm_num
    rw [this]
    simp [convert, toDouble, Fmt.roundSigned, binary64_round_seven_halves]

theorem C7_truediv_divides_in_double_witness :
    |(7 : Int)| < 2 ^ 53 ∧ |(-2 : Int)| < 2 ^ 53 ∧ (-2 : Int) ≠ 0
    ∧ TrueDiv.operate (.int .int32) (.int .int8 7) (.double (.num 2))
        = convert (.int .int32) (.double (binary64.div (toDouble (.int .int8 7))
            (toDouble (.double (.num 2)))))
    ∧ TrueDiv.operate .double (.int .int32 7) (.int .int64 (-2))
        = .ok (.double (binary64.roundSigned (xor (decide ((7 : Int) < 0))
            (decide ((-2 : Int) < 0))) (((7 : Int) : ℚ) / ((-2 : Int) : ℚ)))) :=
  have h := C7_truediv_divides_in_double (.int .int32) (.int .int8 7) (.double (.num 2))
    .int32 .int64 7 (-2) (by decide) (by decide) (by decide)
  ⟨by decide, by decide, by decide, h.1, h.2.1⟩


/-! ## Overload selection -/

/-- Which overload of `Mod` / `RMod` is viable and selected, by trait class of `TypeOut`. -/
theorem Mod_overload_selection_core (tr : Traits) (tout : Ty) (x y : Val)
    (hIF : ¬(tr.isIntegral tout = true ∧ tr.isFloat tout = true))
    (hID : ¬(tr.isIntegral tout = true ∧ tr.isDouble tout = true))
    (hFD : ¬(tr.isFloat tout = true ∧ tr.isDouble tout = true)) :
    (Mod.operate tr tout x y = (selectOverload tr tout).bind (fun b => b.run tout x y)
      ∧ RMod.operate tr tout x y = (selectOverload tr tout).bind (fun b => b.run tout y x))
    ∧ (tr.isIntegral tout = true →
        viable tr tout = [.integral] ∧ selectOverload tr tout = .ok .integral)
    ∧ (tr.isFloat tout = true →
        viable tr tout = [.single] ∧ selectOverload tr tout = .ok .single)
    ∧ (tr.isDouble tout = true →
        viable tr tout = [.dbl] ∧ selectOverload tr tout = .ok .dbl)
    ∧ (tr.isIntegral tout = false → tr.isFloat tout = false → tr.isDouble tout = false →
        viable tr tout = [] ∧ selectOverload tr tout = .error .illFormed
        ∧ Mod.operate tr tout x y = .error .illFormed
        ∧ RMod.operate tr tout x y = .error .illFormed)
    ∧ (∀ tout' : Ty, tr.isIntegral tout' = tr.isIntegral tout →
        tr.isFloat tout' = tr.isFloat tout → tr.isDouble tout' = tr.isDouble tout →
        selectOverload tr tout' = selectOverload tr tout) := by
  refine ⟨⟨rfl, rfl⟩, ?_, ?_, ?_, ?_, ?_⟩
  rotate_right
  · intro tout' h1 h2 h3
    simp only [selectOverload, viable, List.filter, ModBody.guard, h1, h2, h3]
  · intro h
    have h2 : tr.isFloat tout = false := by
      cases hf : tr.isFloat tout <;> simp_all
    have h3 : tr.isDouble tout = false := by
      cases hf : tr.isDouble tout <;> simp_all
    simp [selectOverload, viable, ModBody.guard, h, h2, h3]
  · intro h
    have h2 : tr.isIntegral tout = false := by
      cases hf : tr.isIntegral tout <;> simp_all
    have h3 : tr.isDouble tout = false := by
      cases hf : tr.isDouble tout <;> simp_all
    simp [selectOverload, viable, ModBody.guard, h, h2, h3]
  · intro h
    have h2 : tr.isIntegral tout = false := by
      cases hf : tr.isIntegral tout <;> simp_all
    have h3 : tr.isFloat tout = false := by
      cases hf : tr.isFloat tout <;> simp_all
    simp [selectOverload, viable, ModBody.guard, h, h2, h3]
  · intro h1 h2 h3
    simp [Mod.operate, RMod.operate, selectOverload, viable, ModBody.guard, h1, h2, h3, bind,
      Except.bind]

theorem truncQ_fifteen_quarters : truncQ (15 / 2 / 2) = 3 := by
  have h : (0 : ℚ) ≤ 15 / 2 / 2 := by norm_num
  rw [truncQ, if_pos h, Int.floor_eq_iff]
  norm_num

theorem truncQ_four_fifteenths : truncQ (2 / (15 / 2)) = 0 := by
  have h : (0 : ℚ) ≤ 2 / (15 / 2) := by norm_num
  rw [truncQ, if_pos h, Int.floor_eq_iff]
  norm_num

theorem fmod_example : FP.fmod (.num (15 / 2)) (.num 2) = .num (3 / 2) := by
  simp only [FP.fmod, FP.toRat?, Option.getD, truncQ_fifteen_quarters]
  norm_num

theorem fmod_example_swapped : FP.fmod (.num 2) (.num (15 / 2)) = .num 2 := by
  simp only [FP.fmod, FP.toRat?, Option.getD, truncQ_four_fifteenths]
  norm_num

theorem selectOverload_of_class (tr : Traits) (tout : Ty)
    (hIF : ¬(tr.isIntegral tout = true ∧ tr.isFloat tout = true))
    (hID : ¬(tr.isIntegral tout = true ∧ tr.isDouble tout = true))
    (hFD : ¬(tr.isFloat tout = true ∧ tr.isDouble tout = true)) :
    (tr.isIntegral tout = true → selectOverload tr tout = .ok .integral)
    ∧ (tr.isFloat tout = true → selectOverload tr tout = .ok .single)
    ∧ (tr.isDouble tout = true → selectOverload tr tout = .ok .dbl) := by
  refine ⟨?_, ?_, ?_⟩
  · intro h
    have h2 : tr.isFloat tout = false := by
      cases hf : tr.isFloat tout <;> simp_all
    have h3 : tr.isDouble tout = false := by
      cases hf : tr.isDouble tout <;> simp_all
    simp [selectOverload, viable, ModBody.guard, h, h2, h3]
  · intro h
    have h2 : tr.isIntegral tout = false := by
      cases hf : tr.isIntegral tout <;> simp_all
    have h3 : tr.isDouble tout = false := by
      cases hf : tr.isDouble tout <;> simp_all
    simp [selectOverload, viable, ModBody.guard, h, h2, h3]
  · intro h
    have h2 : tr.isIntegral tout = false := by
      cases hf : tr.isIntegral tout <;> simp_all
    have h3 : tr.isFloat tout = false := by
      cases hf : tr.isFloat tout <;> simp_all
    simp [selectOverload, viable, ModBody.guard, h, h2, h3]

/-- The body each selected overload of `Mod` / `RMod` runs, with an instance of each. -/
theorem Mod_overload_bodies (tr : Traits) (tout : Ty) (x y : Val)
    (hIF : ¬(tr.isIntegral tout = true ∧ tr.isFloat tout = true))
    (hID : ¬(tr.isIntegral tout = true ∧ tr.isDouble tout = true))
    (hFD : ¬(tr.isFloat tout = true ∧ tr.isDouble tout = true)) :
    (tr.isIntegral tout = true →
        Mod.operate tr tout x y
          = (convert tout x >>= fun a => convert tout y >>= fun b =>
              arith .mod a b >>= fun r => convert tout r)
        ∧ RMod.operate tr tout x y
          = (convert tout y >>= fun a => convert tout x >>= fun b =>
              arith .mod a b >>= fun r => convert tout r))
    ∧ (tr.isFloat tout = true →
        Mod.operate tr tout x y
          = (convert tout x >>= fun a => convert tout y >>= fun b =>
              convert tout (.float (FP.fmod (toFloat a) (toFloat b))))
        ∧ RMod.operate tr tout x y
          = (convert tout y >>= fun a => convert tout x >>= fun b =>
              convert tout (.float (FP.fmod (toFloat a) (toFloat b)))))
    ∧ (tr.isDouble tout = true →
        Mod.operate tr tout x y
          = (convert tout x >>= fun a => convert tout y >>= fun b =>
              convert tout (.double (FP.fmod (toDouble a) (toDouble b))))
        ∧ RMod.operate tr tout x y
          = (convert tout y >>= fun a => convert tout x >>= fun b =>
              convert tout (.double (FP.fmod (toDouble a) (toDouble b)))))
    ∧ (Mod.operate stdTraits (.int .int32) (.int .int32 7) (.int .int32 3)
          = .ok (.int .int32 1)
      ∧ Mod.operate stdTraits .float (.float (.num (15 / 2))) (.float (.num 2))
          = .ok (.float (.num (3 / 2)))
      ∧ Mod.operate stdTraits .double (.double (.num (15 / 2))) (.double (.num 2))
          = .ok (.double (.num (3 / 2)))
      ∧ RMod.operate stdTraits (.int .int32) (.int .int32 3) (.int .int32 7)
          = .ok (.int .int32 1)
      ∧ RMod.operate stdTraits .float (.float (.num 2)) (.float (.num (15 / 2)))
          = .ok (.float (.num (3 / 2)))
      ∧ RMod.operate stdTraits .double (.double (.num 2)) (.double (.num (15 / 2)))
          = .ok (.double (.num (3 / 2)))
      ∧ Mod.operate stdTraits .double (.double (.num 2)) (.double (.num (15 / 2)))
          = .ok (.double (.num 2))) := by
  obtain ⟨hi, hf, hd⟩ := selectOverload_of_class tr tout hIF hID hFD
  have hsf : selectOverload stdTraits .float = .ok .single := by decide
  have hsd : selectOverload stdTraits .double = .ok .dbl := by decide
  refine ⟨fun h => ?_, fun h => ?_, fun h => ?_, by decide, ?_, ?_, by decide, ?_, ?_, ?_⟩
  · constructor <;>
      simp only [Mod.operate, RMod.operate, hi h, bind, Except.bind, ModBody.run, castArith]
  · constructor <;>
      simp only [Mod.operate, RMod.operate, hf h, bind, Except.bind, ModBody.run]
  · constructor <;>
      simp only [Mod.operate, RMod.operate, hd h, bind, Except.bind, ModBody.run]
  · simp only [Mod.operate, hsf, bind, Except.bind, ModBody.run, convert, toFloat, fmod_example]
  · simp only [Mod.operate, hsd, bind, Except.bind, ModBody.run, convert, toDouble,
      fmod_example]
  · simp only [RMod.operate, hsf, bind, Except.bind, ModBody.run, convert, toFloat,
      fmod_example]
  · simp only [RMod.operate, hsd, bind, Except.bind, ModBody.run, convert, toDouble,
      fmod_example]
  · simp only [Mod.operate, hsd, bind, Except.bind, ModBody.run, convert, toDouble,
      fmod_example_swapped]

/-- C8: the overload of `Mod` / `RMod` is chosen from the trait class of `TypeOut` alone.
When the three traits are mutually exclusive on `TypeOut`, a `TypeOut` of a class has exactly
one viable overload and that one is selected and run: for the integral class the call is
`(TypeOut)x % (TypeOut)y`, for the single-float class `fmodf((TypeOut)x, (TypeOut)y)`, for
the double class `fmod((TypeOut)x, (TypeOut)y)` (`RMod` with the operands exchanged); a
`TypeOut` of no class has no viable overload and the instantiation is ill formed for all
operands. -/
theorem C8_mod_overload_selection (tr : Traits) (tout : Ty) (x y : Val)
    (hIF : ¬(tr.isIntegral tout = true ∧ tr.isFloat tout = true))
    (hID : ¬(tr.isIntegral tout = true ∧ tr.isDouble tout = true))
    (hFD : ¬(tr.isFloat tout = true ∧ tr.isDouble tout = true)) :
    (Mod.operate tr tout x y = (selectOverload tr tout).bind (fun b => b.run tout x y)
      ∧ RMod.operate tr tout x y = (selectOverload tr tout).bind (fun b => b.run tout y x))
    ∧ (tr.isIntegral tout = true →
        viable tr tout = [.integral] ∧ selectOverload tr tout = .ok .integral)
    ∧ (tr.isFloat tout = true →
        viable tr tout = [.single] ∧ selectOverload tr tout = .ok .single)
    ∧ (tr.isDouble tout = true →
        viable tr tout = [.dbl] ∧ selectOverload tr tout = .ok .dbl)
    ∧ (tr.isIntegral tout = false → tr.isFloat tout = false → tr.isDouble tout = false →
        viable tr tout = [] ∧ selectOverload tr tout = .error .illFormed
        ∧ Mod.operate tr tout x y = .error .illFormed
        ∧ RMod.operate tr tout x y = .error .illFormed)
    ∧ (∀ tout' : Ty, tr.isIntegral tout' = tr.isIntegral tout →
        tr.isFloat tout' = tr.isFloat tout → tr.isDouble tout' = tr.isDouble tout →
        selectOverload tr tout' = selectOverload tr tout)
    ∧ (tr.isIntegral tout = true →
        Mod.operate tr tout x y
          = (convert tout x >>= fun a => convert tout y >>= fun b =>
              arith .mod a b >>= fun r => convert tout r)
        ∧ RMod.operate tr tout x y
          = (convert tout y >>= fun a => convert tout x >>= fun b =>
              arith .mod a b >>= fun r => convert tout r))
    ∧ (tr.isFloat tout = true →
        Mod.operate tr tout x y
          = (convert tout x >>= fun a => convert tout y >>= fun b =>
              convert tout (.float (FP.fmod (toFloat a) (toFloat b))))
        ∧ RMod.operate tr tout x y
          = (convert tout y >>= fun a => convert tout x >>= fun b =>
              convert tout (.float (FP.fmod (toFloat a) (toFloat b)))))
    ∧ (tr.isDouble tout = true →
        Mod.operate tr tout x y
          = (convert tout x >>= fun a => convert tout y >>= fun b =>
              convert tout (.double (FP.fmod (toDouble a) (toDouble b))))
        ∧ RMod.operate tr tout x y
          = (convert tout y >>= fun a => convert tout x >>= fun b =>
              convert tout (.double (FP.fmod (toDouble a) (toDouble b)))))
    ∧ (Mod.operate stdTraits (.int .int32) (.int .int32 7) (.int .int32 3)
          = .ok (.int .int32 1)
      ∧ Mod.operate stdTraits .float (.float (.num (15 / 2))) (.float (.num 2))
          = .ok (.float (.num (3 / 2)))
      ∧ Mod.operate stdTraits .double (.double (.num (15 / 2))) (.double (.num 2))
          = .ok (.double (.num (3 / 2)))
      ∧ RMod.operate stdTraits (.int .int32) (.int .int32 3) (.int .int32 7)
          = .ok (.int .int32 1)
      ∧ RMod.operate stdTraits .float (.float (.num 2)) (.float (.num (15 / 2)))
          = .ok (.float (.num (3 / 2)))
      ∧ RMod.operate stdTraits .double (.double (.num 2)) (.double (.num (15 / 2)))
          = .ok (.double (.num (3 / 2)))
      ∧ Mod.operate stdTraits .double (.double (.num 2)) (.double (.num (15 / 2)))
          = .ok (.double (.num 2))) := by
  obtain ⟨h1, h2, h3, h4, h5, h6⟩ := Mod_overload_selection_core tr tout x y hIF hID hFD
  obtain ⟨h7, h8, h9, h10⟩ := Mod_overload_bodies tr tout x y hIF hID hFD
  exact ⟨h1, h2, h3, h4, h5, h6, h7, h8, h9, h10⟩

theorem C8_mod_overload_selection_witness :
    (¬(stdTraits.isIntegral .float = true ∧ stdTraits.isFloat .float = true)
      ∧ ¬(stdTraits.isIntegral .float = true ∧ stdTraits.isDouble .float = true)
      ∧ ¬(stdTraits.isFloat .float = true ∧ stdTraits.isDouble .float = true)
      ∧ (stdTraits.isFloat .float = true →
          viable stdTraits .float = [.single] ∧ selectOverload stdTraits .float = .ok .single))
    ∧ (¬(noDoubleTraits.isIntegral .double = true ∧ noDoubleTraits.isFloat .double = true)
      ∧ ¬(noDoubleTraits.isIntegral .double = true ∧ noDoubleTraits.isDouble .double = true)
      ∧ ¬(noDoubleTraits.isFloat .double = true ∧ noDoubleTraits.isDouble .double = true)
      ∧ (noDoubleTraits.isIntegral .double = false → noDoubleTraits.isFloat .double = false →
          noDoubleTraits.isDouble .double = false →
          viable noDoubleTraits .double = [] ∧
          selectOverload noDoubleTraits .double = .error .illFormed
          ∧ Mod.operate noDoubleTraits .double (.int .int32 7) (.double (.num 2))
              = .error .illFormed
          ∧ RMod.operate noDoubleTraits .double (.int .int32 7) (.double (.num 2))
              = .error .illFormed)) :=
  ⟨⟨by decide, by decide, by decide,
      (C8_mod_overload_selection stdTraits .float (.int .int32 7) (.double (.num 2))
        (by decide) (by decide) (by decide)).2.2.1⟩,
    ⟨by decide, by decide, by decide,
      (C8_mod_overload_selection noDoubleTraits .double (.int .int32 7) (.double (.num 2))
        (by decide) (by decide) (by decide)).2.2.2.2.1⟩⟩

/-! ## Wrap-around arithmetic -/

theorem IntTy.pow_bits_dvd_promote (t : IntTy) :
    (2 : Int) ^ t.bits ∣ 2 ^ t.promote.bits :=
  pow_dvd_pow 2 (by cases t <;> decide)

theorem IntTy.wrap_promote_wrap (t : IntTy) (z : Int) : t.wrap (t.promote.wrap z) = t.wrap z :=
  t.wrap_eq_of_modEq _ _ ((t.promote.wrap_modEq z).of_dvd t.pow_bits_dvd_promote)

theorem IntTy.wrap_add_wrap (t : IntTy) (x y : Int) :
    t.wrap (t.wrap x + t.wrap y) = t.wrap (x + y) :=
  t.wrap_eq_of_modEq _ _ ((t.wrap_modEq x).add (t.wrap_modEq y))

theorem IntTy.wrap_sub_wrap (t : IntTy) (x y : Int) :
    t.wrap (t.wrap x - t.wrap y) = t.wrap (x - y) :=
  t.wrap_eq_of_modEq _ _ ((t.wrap_modEq x).sub (t.wrap_modEq y))

theorem IntTy.wrap_mul_wrap (t : IntTy) (x y : Int) :
    t.wrap (t.wrap x * t.wrap y) = t.wrap (x * y) :=
  t.wrap_eq_of_modEq _ _ ((t.wrap_modEq x).mul (t.wrap_modEq y))

/-- C9: `Add`, `Sub` and `Mul` wrap silently: for every integer output type and integer
operands of any types, the call returns a value (never a fault), namely the unique value of
the output type congruent modulo `2 ^ bits` to the exact `x + y`, `x - y`, `x * y`;
reducing the operands to the output type first gives the same result as reducing the exact
result. -/
theorem C9_add_sub_mul_wrap (t tx ty : IntTy) (x y : Int) :
    (Add.operate (.int t) (.int tx x) (.int ty y) = .ok (.int t (t.wrap (x + y)))
      ∧ Sub.operate (.int t) (.int tx x) (.int ty y) = .ok (.int t (t.wrap (x - y)))
      ∧ Mul.operate (.int t) (.int tx x) (.int ty y) = .ok (.int t (t.wrap (x * y))))
    ∧ (t.wrap (t.wrap x + t.wrap y) = t.wrap (x + y)
      ∧ t.wrap (t.wrap x - t.wrap y) = t.wrap (x - y)
      ∧ t.wrap (t.wrap x * t.wrap y) = t.wrap (x * y))
    ∧ (∀ z : Int, t.InRange (t.wrap z) ∧ t.wrap z ≡ z [ZMOD 2 ^ t.bits]
        ∧ ∀ r : Int, t.InRange r → r ≡ z [ZMOD 2 ^ t.bits] → r = t.wrap z) := by
  refine ⟨⟨?_, ?_, ?_⟩, ⟨t.wrap_add_wrap x y, t.wrap_sub_wrap x y, t.wrap_mul_wrap x y⟩,
    fun z => ⟨t.wrap_inRange z, t.wrap_modEq z, fun r hr hz =>
      t.eq_of_modEq _ _ hr (t.wrap_inRange z) (hz.trans (t.wrap_modEq z).symm)⟩⟩
  · simp only [Add.operate, castArith_int, intArith, Except.map, IntTy.wrap_promote_wrap,
      IntTy.wrap_add_wrap]
  · simp only [Sub.operate, castArith_int, intArith, Except.map, IntTy.wrap_promote_wrap,
      IntTy.wrap_sub_wrap]
  · simp only [Mul.operate, castArith_int, intArith, Except.map, IntTy.wrap_promote_wrap,
      IntTy.wrap_mul_wrap]

theorem sumThenCast_int (t tx ty : IntTy) (x y : Int) :
    sumThenCast (.int t) (.int tx x) (.int ty y)
      = .ok (.int t (t.wrap ((IntTy.common tx.promote ty.promote).wrap (x + y)))) := by
  simp only [sumThenCast, arith, Val.ty, commonTy, toInt, intArith, convert, bind, Except.bind,
    Except.map, pure, Except.pure, IntTy.wrap_add_wrap]

/-- The claim C10 as stated fails at its own example: with 32-bit operands
`x = y = 2^31 - 1` and a 64-bit output type, `Add` returns `2^32 - 2` while the native sum
converted to the output type is `-2`; likewise for unsigned operands, whose native sum wraps
by definition. -/
theorem C10_counterexample :
    Add.operate (.int .int64) (.int .int32 2147483647) (.int .int32 2147483647)
        = .ok (.int .int64 4294967294)
    ∧ sumThenCast (.int .int64) (.int .int32 2147483647) (.int .int32 2147483647)
        = .ok (.int .int64 (-2))
    ∧ Add.operate (.int .uint64) (.int .uint32 4294967295) (.int .uint32 4294967295)
        = .ok (.int .uint64 8589934590)
    ∧ sumThenCast (.int .uint64) (.int .uint32 4294967295) (.int .uint32 4294967295)
        = .ok (.int .uint64 4294967294)
    ∧ ¬ (∀ (t tx ty : IntTy) (x y : Int), tx.InRange x → ty.InRange y →
          Add.operate (.int t) (.int tx x) (.int ty y)
            = sumThenCast (.int t) (.int tx x) (.int ty y)) := by
  refine ⟨by decide, by decide, by decide, by decide, fun h => ?_⟩
  have := h .int64 .int32 .int32 2147483647 2147483647 (by decide) (by decide)
  revert this
  decide

theorem IntTy.bits_le_common (ta tb : IntTy) :
    ta.bits ≤ (IntTy.common ta.promote tb.promote).bits
    ∧ tb.bits ≤ (IntTy.common ta.promote tb.promote).bits := by
  cases ta <;> cases tb <;> decide

theorem IntTy.range_of_bits_le (t : IntTy) (v : Int) (hb : t.bits ≤ 32) (hv : t.InRange v) :
    -2147483648 ≤ v ∧ v < 4294967296 := by
  cases t <;> simp [IntTy.InRange, IntTy.minVal, IntTy.maxVal, IntTy.isSigned,
    IntTy.bits] at hb hv ⊢ <;> omega

/-- Converting to a strictly wider type after wrapping in a narrower one differs from
converting the exact value, when the exact value (a sum of two operands of at most 32 bits)
is not representable in the narrower type. -/
theorem IntTy.wrap_wrap_ne (t c : IntTy) (z : Int) (hcb : c.bits < t.bits)
    (hc32 : 32 ≤ c.bits) (hz : -4294967296 ≤ z ∧ z < 8589934592) (hn : ¬ c.InRange z) :
    t.wrap z ≠ t.wrap (c.wrap z) := by
  have ht : t = .int64 ∨ t = .uint64 := by
    cases t <;> cases c <;> simp [IntTy.bits] at hcb hc32 ⊢
  have hc : c = .int32 ∨ c = .uint32 := by
    cases t <;> cases c <;> simp [IntTy.bits] at hcb hc32 ⊢
  rcases ht with rfl | rfl <;> rcases hc with rfl | rfl <;>
    simp [IntTy.InRange, IntTy.wrap, IntTy.minVal, IntTy.maxVal, IntTy.isSigned,
      IntTy.bits] at hn ⊢ <;> omega

theorem IntTy.common_bits_ge (ta tb : IntTy) :
    32 ≤ (IntTy.common ta.promote tb.promote).bits := by
  cases ta <;> cases tb <;> decide

/-- C10 (amended): `Add` is `(TypeOut)x + (TypeOut)y`, the sum of the operands each
converted to the output type, computed in the output type, for all integer types and
operands. It equals `(TypeOut)(x + y)`, the native sum converted afterwards, whenever the
output type is no wider than the operands' common type or the exact sum is representable in
that common type; for operands representable in their own types, whenever the output type
is wider than the common type and the exact sum is not representable in it, the two
differ. -/
theorem C10_add_casts_then_sums (t tx ty : IntTy) (x y : Int) :
    Add.operate (.int t) (.int tx x) (.int ty y)
        = .ok (.int t (t.wrap (t.wrap x + t.wrap y)))
    ∧ (t.bits ≤ (IntTy.common tx.promote ty.promote).bits
        ∨ (IntTy.common tx.promote ty.promote).InRange (x + y) →
        Add.operate (.int t) (.int tx x) (.int ty y)
          = sumThenCast (.int t) (.int tx x) (.int ty y))
    ∧ (tx.InRange x → ty.InRange y → (IntTy.common tx.promote ty.promote).bits < t.bits →
        ¬ (IntTy.common tx.promote ty.promote).InRange (x + y) →
        Add.operate (.int t) (.int tx x) (.int ty y)
          ≠ sumThenCast (.int t) (.int tx x) (.int ty y)) := by
  have hadd : Add.operate (.int t) (.int tx x) (.int ty y) = .ok (.int t (t.wrap (x + y))) := by
    simp only [Add.operate, castArith_int, intArith, Except.map, IntTy.wrap_promote_wrap,
      IntTy.wrap_add_wrap]
  refine ⟨by rw [hadd, IntTy.wrap_add_wrap], ?_, ?_⟩
  · intro h
    rw [hadd, sumThenCast_int]
    rcases h with h | h
    · exact congrArg _ (congrArg _ (t.wrap_eq_of_modEq _ _
        (((IntTy.common tx.promote ty.promote).wrap_modEq (x + y)).of_dvd
          (pow_dvd_pow 2 h)).symm))
    · rw [IntTy.wrap_of_inRange _ _ h]
  · intro hx hy hcb hn
    rw [hadd, sumThenCast_int]
    have hb := IntTy.bits_le_common tx ty
    have ht64 : t.bits ≤ 64 := by cases t <;> decide
    have hc32 : (IntTy.common tx.promote ty.promote).bits ≤ 32 := by
      generalize IntTy.common tx.promote ty.promote = c at hcb
      cases t <;> cases c <;> simp [IntTy.bits] at hcb ⊢
    have hxr := tx.range_of_bits_le x (by omega) hx
    have hyr := ty.range_of_bits_le y (by omega) hy
    have hne := IntTy.wrap_wrap_ne t _ (x + y) hcb (IntTy.common_bits_ge tx ty)
      ⟨by omega, by omega⟩ hn
    intro heq
    apply hne
    simpa using heq

theorem C10_add_casts_then_sums_witness :
    ((IntTy.int8.bits ≤ (IntTy.common IntTy.int32.promote IntTy.int32.promote).bits
        ∨ (IntTy.common IntTy.int32.promote IntTy.int32.promote).InRange
            (2147483647 + 2147483647))
      ∧ Add.operate (.int .int8) (.int .int32 2147483647) (.int .int32 2147483647)
          = sumThenCast (.int .int8) (.int .int32 2147483647) (.int .int32 2147483647))
    ∧ (IntTy.int32.InRange (-1) ∧ IntTy.uint32.InRange 0
      ∧ (IntTy.common IntTy.int32.promote IntTy.uint32.promote).bits < IntTy.int64.bits
      ∧ ¬ (IntTy.common IntTy.int32.promote IntTy.uint32.promote).InRange (-1 + 0)
      ∧ Add.operate (.int .int64) (.int .int32 (-1)) (.int .uint32 0)
          ≠ sumThenCast (.int .int64) (.int .int32 (-1)) (.int .uint32 0)) :=
  ⟨⟨by decide,
      (C10_add_casts_then_sums .int8 .int32 .int32 2147483647 2147483647).2.1 (by decide)⟩,
    ⟨by decide, by decide, by decide, by decide,
      (C10_add_casts_then_sums .int64 .int32 .uint32 (-1) 0).2.2 (by decide) (by decide)
        (by decide) (by decide)⟩⟩


/-! ## Round trips -/

theorem toInt_inRange (t : IntTy) (x : Val) (a : Int) (h : toInt t x = .ok a) : t.InRange a := by
  cases x with
  | int tx v =>
    simp only [toInt, Except.ok.injEq] at h
    exact h ▸ t.wrap_inRange v
  | float f =>
    cases f with
    | num q =>
      simp only [toInt] at h
      split_ifs at h with hr
      simp only [Except.ok.injEq] at h
      exact h ▸ hr
    | negZero =>
      simp only [toInt, Except.ok.injEq] at h
      subst h; cases t <;> decide
    | inf s => simp [toInt] at h
    | nan => simp [toInt] at h
  | double f =>
    cases f with
    | num q =>
      simp only [toInt] at h
      split_ifs at h with hr
      simp only [Except.ok.injEq] at h
      exact h ▸ hr
    | negZero =>
      simp only [toInt, Except.ok.injEq] at h
      subst h; cases t <;> decide
    | inf s => simp [toInt] at h
    | nan => simp [toInt] at h

/-- Evaluation of `(TypeOut)a op (TypeOut)b` for an integer output type and arbitrary
operands whose conversions to the output type are defined. -/
theorem castArith_of_toInt (op : ArithOp) (t : IntTy) (x y : Val) (a b : Int)
    (hx : toInt t x = .ok a) (hy : toInt t y = .ok b) :
    castArith op (.int t) x y
      = (intArith t.promote op a b).map (fun r => Val.int t (t.wrap r)) := by
  have ha := toInt_inRange t x a hx
  have hb := toInt_inRange t y b hy
  have h := castArith_int op t t t a b
  rw [t.wrap_of_inRange a ha, t.wrap_of_inRange b hb] at h
  have hcx : convert (.int t) x = .ok (.int t a) := by simp only [convert, hx, Except.map]
  have hcy : convert (.int t) y = .ok (.int t b) := by simp only [convert, hy, Except.map]
  have hca : convert (.int t) (.int t a) = .ok (.int t a) := by
    simp only [convert, toInt, Except.map, t.wrap_of_inRange a ha]
  have hcb : convert (.int t) (.int t b) = .ok (.int t b) := by
    simp only [convert, toInt, Except.map, t.wrap_of_inRange b hb]
  rw [← h]
  simp only [castArith, hcx, hcy, hca, hcb]

/-- Evaluation of `Add`, `Sub` and `Mul` on integers. -/
theorem Add_int_eval (t tx ty : IntTy) (x y : Int) :
    Add.operate (.int t) (.int tx x) (.int ty y) = .ok (.int t (t.wrap (x + y))) := by
  simp only [Add.operate, castArith_int, intArith, Except.map, IntTy.wrap_promote_wrap,
    IntTy.wrap_add_wrap]

theorem Sub_int_eval (t tx ty : IntTy) (x y : Int) :
    Sub.operate (.int t) (.int tx x) (.int ty y) = .ok (.int t (t.wrap (x - y))) := by
  simp only [Sub.operate, castArith_int, intArith, Except.map, IntTy.wrap_promote_wrap,
    IntTy.wrap_sub_wrap]

theorem RSub_int_eval (t tx ty : IntTy) (x y : Int) :
    RSub.operate (.int t) (.int tx x) (.int ty y) = .ok (.int t (t.wrap (y - x))) :=
  Sub_int_eval t ty tx y x

/-- C13: round trip of `Sub` through its reflected form, for every integer type `T` used
for both operands and the output, with wrap-around arithmetic: `Sub(b, RSub(a, b)) = a`,
`RSub(RSub(a, b), b) = a` and `Add(Sub(a, b), b) = a`, also when the intermediate result
overflows. -/
theorem C13_sub_round_trip (t : IntTy) (a b : Int) (ha : t.InRange a) :
    (RSub.operate (.int t) (.int t a) (.int t b) >>= fun r => Sub.operate (.int t) (.int t b) r)
        = .ok (.int t a)
    ∧ (RSub.operate (.int t) (.int t a) (.int t b)
        >>= fun r => RSub.operate (.int t) r (.int t b)) = .ok (.int t a)
    ∧ (Sub.operate (.int t) (.int t a) (.int t b) >>= fun r => Add.operate (.int t) r (.int t b))
        = .ok (.int t a) := by
  have h1 : t.wrap (b - t.wrap (b - a)) = a := by
    rw [← t.wrap_of_inRange a ha]
    apply t.wrap_eq_of_modEq
    have := (Int.ModEq.refl b).sub (t.wrap_modEq (b - a))
    rw [t.wrap_of_inRange a ha]
    simpa using this
  have h2 : t.wrap (t.wrap (a - b) + b) = a := by
    rw [← t.wrap_of_inRange a ha]
    apply t.wrap_eq_of_modEq
    have := (t.wrap_modEq (a - b)).add (Int.ModEq.refl b)
    rw [t.wrap_of_inRange a ha]
    simpa using this
  refine ⟨?_, ?_, ?_⟩
  · simp only [RSub_int_eval, Sub_int_eval, bind, Except.bind, h1]
  · simp only [RSub_int_eval, bind, Except.bind, h1]
  · simp only [Sub_int_eval, Add_int_eval, bind, Except.bind, h2]

theorem C13_sub_round_trip_witness :
    IntTy.int8.InRange (-128)
    ∧ (RSub.operate (.int .int8) (.int .int8 (-128)) (.int .int8 127)
        >>= fun r => Sub.operate (.int .int8) (.int .int8 127) r) = .ok (.int .int8 (-128))
    ∧ (RSub.operate (.int .int8) (.int .int8 (-128)) (.int .int8 127)
        >>= fun r => RSub.operate (.int .int8) r (.int .int8 127)) = .ok (.int .int8 (-128))
    ∧ (Sub.operate (.int .int8) (.int .int8 (-128)) (.int .int8 127)
        >>= fun r => Add.operate (.int .int8) r (.int .int8 127)) = .ok (.int .int8 (-128)) :=
  ⟨by decide, C13_sub_round_trip .int8 (-128) 127 (by decide)⟩

/-! ## Comparisons -/

/-- The common type of two signed operand types represents every value of either. -/
theorem IntTy.inRange_common_signed (ta tb : IntTy) (v : Int) (ha : ta.isSigned = true)
    (hb : tb.isSigned = true) (hv : ta.InRange v ∨ tb.InRange v) :
    (IntTy.common ta.promote tb.promote).InRange v := by
  cases ta <;> cases tb <;> simp only [IntTy.isSigned, Bool.false_eq_true] at ha hb <;>
    simp [IntTy.InRange, IntTy.minVal, IntTy.maxVal, IntTy.isSigned, IntTy.bits,
      IntTy.common, IntTy.promote] at hv ⊢ <;> omega

/-- Evaluation of a comparison struct on signed integer operands: the operands are compared
as mathematical integers. -/
theorem cmpBody_signed (op : CmpOp) (tout : Ty) (tx ty : IntTy) (x y : Int)
    (hsx : tx.isSigned = true) (hsy : ty.isSigned = true) (hx : tx.InRange x)
    (hy : ty.InRange y) :
    cmpBody op tout (.int tx x) (.int ty y) = .ok (ofBool tout (intCmp op x y)) := by
  rw [cmpBody_int,
    IntTy.wrap_of_inRange _ x (IntTy.inRange_common_signed tx ty x hsx hsy (Or.inl hx)),
    IntTy.wrap_of_inRange _ y (IntTy.inRange_common_signed tx ty y hsx hsy (Or.inr hy))]

/-- C15: the comparison structs compare the operands as given, not narrowed to `TypeOut`:
for signed integer operands of any widths and every integer output type, each of `Equal`,
`NotEqual`, `Less`, `Greater`, `LessEqual`, `GreaterEqual` returns 1 when the mathematical
relation holds and 0 otherwise, whatever `TypeOut` is; hence `Equal + NotEqual = 1`,
`Less + GreaterEqual = 1`, `Greater + LessEqual = 1`; `Less<int8>(300, 5)` is 0 and
`Equal<int8>(256, 0)` is 0. -/
theorem C15_comparisons_use_operands_as_given (t tx ty : IntTy) (x y : Int)
    (hsx : tx.isSigned = true) (hsy : ty.isSigned = true) (hx : tx.InRange x)
    (hy : ty.InRange y) :
    (∃ e n l g le ge : Int,
      Equal.operate (.int t) (.int tx x) (.int ty y) = .ok (.int t e)
      ∧ NotEqual.operate (.int t) (.int tx x) (.int ty y) = .ok (.int t n)
      ∧ Less.operate (.int t) (.int tx x) (.int ty y) = .ok (.int t l)
      ∧ Greater.operate (.int t) (.int tx x) (.int ty y) = .ok (.int t g)
      ∧ LessEqual.operate (.int t) (.int tx x) (.int ty y) = .ok (.int t le)
      ∧ GreaterEqual.operate (.int t) (.int tx x) (.int ty y) = .ok (.int t ge)
      ∧ e = (if x = y then 1 else 0) ∧ n = (if x ≠ y then 1 else 0)
      ∧ l = (if x < y then 1 else 0) ∧ g = (if x > y then 1 else 0)
      ∧ le = (if x ≤ y then 1 else 0) ∧ ge = (if x ≥ y then 1 else 0)
      ∧ e + n = 1 ∧ l + ge = 1 ∧ g + le = 1)
    ∧ Less.operate (.int .int8) (.int .int32 300) (.int .int32 5) = .ok (.int .int8 0)
    ∧ Equal.operate (.int .int8) (.int .int32 256) (.int .int32 0) = .ok (.int .int8 0) := by
  refine ⟨⟨_, _, _, _, _, _, ?_, ?_, ?_, ?_, ?_, ?_, rfl, rfl, rfl, rfl, rfl, rfl, ?_, ?_, ?_⟩,
    by decide, by decide⟩
  · simp [Equal.operate, cmpBody_signed, hsx, hsy, hx, hy, ofBool, intCmp]
  · simp [NotEqual.operate, cmpBody_signed, hsx, hsy, hx, hy, ofBool, intCmp]
  · simp [Less.operate, cmpBody_signed, hsx, hsy, hx, hy, ofBool, intCmp]
  · simp [Greater.operate, cmpBody_signed, hsx, hsy, hx, hy, ofBool, intCmp]
  · simp [LessEqual.operate, cmpBody_signed, hsx, hsy, hx, hy, ofBool, intCmp]
  · simp [GreaterEqual.operate, cmpBody_signed, hsx, hsy, hx, hy, ofBool, intCmp]
  · split_ifs <;> simp_all
  · split_ifs <;> omega
  · split_ifs <;> omega

theorem C15_comparisons_use_operands_as_given_witness :
    IntTy.int32.isSigned = true ∧ IntTy.int8.isSigned = true ∧ IntTy.int32.InRange 300
    ∧ IntTy.int8.InRange 5
    ∧ ∃ e n l g le ge : Int,
      Equal.operate (.int .int8) (.int .int32 300) (.int .int8 5) = .ok (.int .int8 e)
      ∧ NotEqual.operate (.int .int8) (.int .int32 300) (.int .int8 5) = .ok (.int .int8 n)
      ∧ Less.operate (.int .int8) (.int .int32 300) (.int .int8 5) = .ok (.int .int8 l)
      ∧ Greater.operate (.int .int8) (.int .int32 300) (.int .int8 5) = .ok (.int .int8 g)
      ∧ LessEqual.operate (.int .int8) (.int .int32 300) (.int .int8 5) = .ok (.int .int8 le)
      ∧ GreaterEqual.operate (.int .int8) (.int .int32 300) (.int .int8 5)
          = .ok (.int .int8 ge)
      ∧ e = (if (300 : Int) = 5 then 1 else 0) ∧ n = (if (300 : Int) ≠ 5 then 1 else 0)
      ∧ l = (if (300 : Int) < 5 then 1 else 0) ∧ g = (if (300 : Int) > 5 then 1 else 0)
      ∧ le = (if (300 : Int) ≤ 5 then 1 else 0) ∧ ge = (if (300 : Int) ≥ 5 then 1 else 0)
      ∧ e + n = 1 ∧ l + ge = 1 ∧ g + le = 1 :=
  ⟨rfl, rfl, by decide, by decide,
    (C15_comparisons_use_operands_as_given .int8 .int32 .int8 300 5 rfl rfl (by decide)
      (by decide)).1⟩


/-! ## Division in the output type and in double precision -/

theorem truncQ_intCast (n : Int) : truncQ (n : ℚ) = n := by
  unfold truncQ; split_ifs <;> simp

/-- Truncation only depends on the unit interval of integers a number lies in. -/
theorem truncQ_congr (r q : ℚ) (hf : ⌊r⌋ = ⌊q⌋) (hc : ⌈r⌉ = ⌈q⌉) : truncQ r = truncQ q := by
  have hs : 0 ≤ r ↔ 0 ≤ q := by rw [← Int.floor_nonneg, hf, Int.floor_nonneg]
  unfold truncQ
  by_cases h : 0 ≤ q
  · rw [if_pos h, if_pos (hs.mpr h), hf]
  · rw [if_neg h, if_neg (fun h' => h (hs.mp h')), hc]

/-- The floor of an integer quotient, relative to the truncated quotient. -/
theorem floor_quot_eq (x y : Int) (hy : y ≠ 0) :
    ⌊(x : ℚ) / y⌋ = if y ∣ x ∨ (0 < x ∧ 0 < y) ∨ (x < 0 ∧ y < 0) then Int.tdiv x y
      else Int.tdiv x y - 1 := by
  have hyq : (y : ℚ) ≠ 0 := by exact_mod_cast hy
  rw [← truncQ_div x y hy]
  by_cases hd : y ∣ x
  · obtain ⟨k, rfl⟩ := hd
    have : ((y * k : Int) : ℚ) / y = (k : ℚ) := by push_cast; field_simp
    rw [if_pos (Or.inl ⟨k, rfl⟩), this, truncQ_intCast, Int.floor_intCast]
  · have hx0 : x ≠ 0 := fun h => hd (h ▸ dvd_zero y)
    have hni : (x : ℚ) / y ≠ (⌊(x : ℚ) / y⌋ : ℚ) := by
      intro h
      apply hd
      refine ⟨⌊(x : ℚ) / y⌋, ?_⟩
      have h2 : (x : ℚ) = y * (⌊(x : ℚ) / y⌋ : ℚ) := by
        rw [← h]; field_simp
      exact_mod_cast h2
    by_cases hs : (0 < x ∧ 0 < y) ∨ (x < 0 ∧ y < 0)
    · have hq : 0 ≤ (x : ℚ) / y := by
        rcases hs with ⟨h1, h2⟩ | ⟨h1, h2⟩
        · exact div_nonneg (by exact_mod_cast h1.le) (by exact_mod_cast h2.le)
        · exact div_nonneg_of_nonpos (by exact_mod_cast h1.le) (by exact_mod_cast h2.le)
      rw [if_pos (Or.inr hs), truncQ, if_pos hq]
    · have hq : ¬ 0 ≤ (x : ℚ) / y := by
        intro hq
        apply hs
        rcases lt_or_gt_of_ne hx0 with h1 | h1 <;> rcases lt_or_gt_of_ne hy with h2 | h2
        · exact Or.inr ⟨h1, h2⟩
        · have : (x : ℚ) / y < 0 :=
            div_neg_of_neg_of_pos (by exact_mod_cast h1) (by exact_mod_cast h2)
          linarith
        · have : (x : ℚ) / y < 0 :=
            div_neg_of_pos_of_neg (by exact_mod_cast h1) (by exact_mod_cast h2)
          linarith
        · exact Or.inl ⟨h1, h2⟩
      have hc : ⌈(x : ℚ) / y⌉ = ⌊(x : ℚ) / y⌋ + 1 := by
        rw [Int.ceil_eq_iff]
        have h1 := Int.floor_le ((x : ℚ) / y)
        have h2 := Int.lt_floor_add_one ((x : ℚ) / y)
        have h3 : (⌊(x : ℚ) / y⌋ : ℚ) < (x : ℚ) / y := lt_of_le_of_ne h1 (Ne.symm hni)
        push_cast
        constructor <;> linarith
      have hcond : ¬ (y ∣ x ∨ (0 < x ∧ 0 < y) ∨ (x < 0 ∧ y < 0)) := by
        rintro (h | h)
        · exact hd h
        · exact hs h
      rw [if_neg hcond, truncQ, if_neg hq, hc]
      omega


/-- Narrowing the `double` quotient of two integers below `2 ^ 53` in magnitude to an
integer type gives the truncated quotient, when that is representable. -/
theorem trueQuot_toInt (t tx ty : IntTy) (x y : Int) (hx : |x| < 2 ^ 53) (hy : |y| < 2 ^ 53)
    (h0 : y ≠ 0) (hr : t.InRange (Int.tdiv x y)) :
    convert (.int t) (.double (binary64.div (toDouble (.int tx x)) (toDouble (.int ty y))))
      = .ok (.int t (Int.tdiv x y)) := by
  rw [binary64_div_int tx ty x y hx hy h0]
  have hyq : (y : ℚ) ≠ 0 := by exact_mod_cast h0
  by_cases hx0 : x = 0
  · subst hx0
    have hz : t.InRange 0 := by simpa using hr
    cases hs : xor (decide ((0 : Int) < 0)) (decide (y < 0)) <;>
      simp [Fmt.roundSigned, FP.zero, convert, toInt, Except.map, truncQ, hz]
  · have hq0 : (x : ℚ) / y ≠ 0 := div_ne_zero (by exact_mod_cast hx0) hyq
    obtain ⟨r, hround, hfl, hcl⟩ := binary64_round_quot x y hx0 h0 hx hy
    have htr : truncQ r = Int.tdiv x y := by
      rw [truncQ_congr r _ hfl hcl, truncQ_div x y h0]
    simp only [Fmt.roundSigned, if_neg hq0, hround, convert, toInt, htr, if_pos hr, Except.map]

/-- Narrowing the floored `double` quotient of two integers below `2 ^ 53` in magnitude to
an integer type gives the floor of the exact quotient, when that is representable. -/
theorem floorQuot_toInt (t tx ty : IntTy) (x y : Int) (hx : |x| < 2 ^ 53) (hy : |y| < 2 ^ 53)
    (h0 : y ≠ 0) (hr : t.InRange ⌊(x : ℚ) / y⌋) :
    convert (.int t)
        (.double (binary64.div (toDouble (.int tx x)) (toDouble (.int ty y))).floor)
      = .ok (.int t ⌊(x : ℚ) / y⌋) := by
  rw [binary64_div_int tx ty x y hx hy h0]
  have hyq : (y : ℚ) ≠ 0 := by exact_mod_cast h0
  by_cases hx0 : x = 0
  · subst hx0
    have hz : t.InRange 0 := by simpa using hr
    cases hs : xor (decide ((0 : Int) < 0)) (decide (y < 0)) <;>
      simp [Fmt.roundSigned, FP.zero, FP.floor, convert, toInt, Except.map, truncQ, hz]
  · have hq0 : (x : ℚ) / y ≠ 0 := div_ne_zero (by exact_mod_cast hx0) hyq
    obtain ⟨r, hround, hfl, _⟩ := binary64_round_quot x y hx0 h0 hx hy
    simp only [Fmt.roundSigned, if_neg hq0, hround, FP.floor, hfl, convert, toInt,
      truncQ_intCast, if_pos hr, Except.map]

/-- The floor of a quotient of representable operands is representable, except for
`MIN / -1`. -/
theorem IntTy.inRange_floor_quot (t : IntTy) (x y : Int) (hx : t.InRange x) (hy : t.InRange y)
    (h0 : y ≠ 0) (hmin : ¬(x = t.minVal ∧ y = -1)) : t.InRange ⌊(x : ℚ) / y⌋ := by
  have hq := t.inRange_tdiv x y hx hy h0 hmin
  rw [floor_quot_eq x y h0]
  split_ifs with hc
  · exact hq
  · have hy2 : 2 ≤ y.natAbs := by
      by_contra hlt
      have : y = 1 ∨ y = -1 := by omega
      apply hc; left
      rcases this with h | h <;> subst h <;> simp
    have hh := tdiv_natAbs_le_half x y hy2
    have hneg : ¬ (0 ≤ x ∧ 0 ≤ y) := by
      rintro ⟨h1, h2⟩
      apply hc
      rcases eq_or_lt_of_le h1 with h | h
      · left; rw [← h]; exact dvd_zero y
      · right; left; exact ⟨h, by omega⟩
    cases t <;> simp [IntTy.InRange, IntTy.minVal, IntTy.maxVal, IntTy.isSigned,
      IntTy.bits] at hx hy hq ⊢ <;> omega

theorem IntTy.inRange_promote_tdiv_iff (t : IntTy) (a b : Int) (ha : t.InRange a)
    (hb : t.InRange b) (h0 : b ≠ 0) :
    t.promote.InRange (Int.tdiv a b) ↔ ¬ t.QuotOverflows a b := by
  by_cases hmin : a = t.minVal ∧ b = -1
  · obtain ⟨h1, h2⟩ := hmin
    subst h2
    have : Int.tdiv a (-1) = -a := by simp
    rw [this]
    cases t <;> simp [IntTy.QuotOverflows, IntTy.InRange, IntTy.minVal, IntTy.maxVal,
      IntTy.isSigned, IntTy.bits, IntTy.promote] at ha hb h1 ⊢ <;> omega
  · have h := t.inRange_promote _ (t.inRange_tdiv a b ha hb h0 hmin)
    have hq : ¬ t.QuotOverflows a b := fun hq => hmin ⟨hq.2.2.1, hq.2.2.2⟩
    exact ⟨fun _ => hq, fun _ => h⟩

/-- Evaluation of `Div` for an integer output type on arbitrary operands whose conversions
to the output type are defined. -/
theorem Div_eval_cases (t : IntTy) (x y : Val) (a b : Int) (hx : toInt t x = .ok a)
    (hy : toInt t y = .ok b) :
    Div.operate (.int t) x y
      = if b = 0 ∨ t.QuotOverflows a b then .error .undefined
        else .ok (.int t (t.wrap (Int.tdiv a b))) := by
  have ha := toInt_inRange t x a hx
  have hb := toInt_inRange t y b hy
  rw [Div.operate, castArith_of_toInt .div t x y a b hx hy]
  by_cases h0 : b = 0
  · simp [intArith, h0, Except.map]
  · have hiff := t.inRange_promote_tdiv_iff a b ha hb h0
    by_cases hq : t.QuotOverflows a b
    · simp [intArith, h0, hq, Except.map, (not_congr hiff).mpr (not_not.mpr hq)]
    · simp [intArith, h0, hq, Except.map, hiff.mpr hq]

/-- Evaluation of `Mod` for an integer output type on arbitrary operands whose conversions
to the output type are defined. -/
theorem Mod_eval_cases (tr : Traits) (t : IntTy) (x y : Val) (a b : Int)
    (hI : tr.isIntegral (.int t) = true) (hF : tr.isFloat (.int t) = false)
    (hD : tr.isDouble (.int t) = false) (hx : toInt t x = .ok a) (hy : toInt t y = .ok b) :
    Mod.operate tr (.int t) x y
      = if b = 0 ∨ t.QuotOverflows a b then .error .undefined
        else .ok (.int t (Int.tmod a b)) := by
  have ha := toInt_inRange t x a hx
  have hb := toInt_inRange t y b hy
  have hsel : selectOverload tr (.int t) = .ok .integral := by
    simp [selectOverload, viable, ModBody.guard, hI, hF, hD]
  simp only [Mod.operate, hsel, bind, Except.bind, ModBody.run]
  rw [castArith_of_toInt .mod t x y a b hx hy]
  by_cases h0 : b = 0
  · simp [intArith, h0, Except.map]
  · have hiff := t.inRange_promote_tdiv_iff a b ha hb h0
    have hr := t.wrap_of_inRange _ (t.inRange_tmod a b ha hb h0)
    by_cases hq : t.QuotOverflows a b
    · simp [intArith, h0, hq, Except.map, (not_congr hiff).mpr (not_not.mpr hq)]
    · simp [intArith, h0, hq, Except.map, hiff.mpr hq, hr]

theorem truncQ_fifteen_halves : truncQ (15 / 2) = 7 := by
  have h : (0 : ℚ) ≤ 15 / 2 := by norm_num
  rw [truncQ, if_pos h, Int.floor_eq_iff]
  norm_num

theorem truncQ_three_halves : truncQ (3 / 2) = 1 := by
  have h : (0 : ℚ) ≤ 3 / 2 := by norm_num
  rw [truncQ, if_pos h, Int.floor_eq_iff]
  norm_num

/-- The claim C11 as stated fails at its own example: `Div<int8>(300, 7)` narrows 300 to 44
first and returns `44 / 7 = 6`, while the double quotient narrowed afterwards is 42; and on
fractional operands `Div<int>(7.5, 1.5)` is `7 / 1 = 7`, while the double quotient `5.0`
narrows to 5. -/
theorem C11_counterexample :
    Div.operate (.int .int8) (.int .int32 300) (.int .int32 7) = .ok (.int .int8 6)
    ∧ quotInDoubleThenCast (.int .int8) (.int .int32 300) (.int .int32 7)
        = .ok (.int .int8 42)
    ∧ Div.operate (.int .int32) (.double (.num (15 / 2))) (.double (.num (3 / 2)))
        = .ok (.int .int32 7)
    ∧ quotInDoubleThenCast (.int .int32) (.double (.num (15 / 2))) (.double (.num (3 / 2)))
        = .ok (.int .int32 5) := by
  refine ⟨by decide, ?_, ?_, ?_⟩
  · exact trueQuot_toInt .int8 .int32 .int32 300 7 (by decide) (by decide) (by decide)
      (by decide)
  · have hx : toInt .int32 (.double (.num (15 / 2))) = .ok 7 := by
      simp only [toInt, truncQ_fifteen_halves]; decide
    have hy : toInt .int32 (.double (.num (3 / 2))) = .ok 1 := by
      simp only [toInt, truncQ_three_halves]; decide
    rw [Div.operate, castArith_of_toInt .div .int32 _ _ 7 1 hx hy]
    decide
  · have hr : binary64.round (5 : ℚ) = .num 5 := by
      simpa using binary64_round_intCast 5 (by decide)
    have ht : truncQ (5 : ℚ) = 5 := by simpa using truncQ_intCast 5
    simp only [quotInDoubleThenCast, toDouble, Fmt.div, FP.isNeg, FP.toRat?, Option.getD]
    norm_num [Fmt.roundSigned]
    rw [hr]
    simp only [convert, toInt, ht, Except.map]
    decide

/-- C11 (amended): `Div` divides in the output type, not in `double`: for an integral
output type and operands whose conversions `a`, `b` to it are defined (`b` non-zero, not
the pair `MIN, -1`), `Div` is `(TypeOut)x / (TypeOut)y`, the quotient of the narrowed
operands truncated toward zero. It coincides with `(TypeOut)((double)x / (double)y)` when
the operands are integers representable in the output type and below `2 ^ 53` in
magnitude. -/
theorem C11_div_divides_in_output_type (t : IntTy) (x y : Val) (a b : Int)
    (hx : toInt t x = .ok a) (hy : toInt t y = .ok b) (h0 : b ≠ 0)
    (hmin : ¬(a = t.minVal ∧ b = -1)) :
    Div.operate (.int t) x y = .ok (.int t (truncQ ((a : ℚ) / (b : ℚ))))
    ∧ (∀ tx ty : IntTy, x = .int tx a → y = .int ty b → |a| < 2 ^ 53 → |b| < 2 ^ 53 →
        Div.operate (.int t) x y = quotInDoubleThenCast (.int t) x y) := by
  have ha := toInt_inRange t x a hx
  have hb := toInt_inRange t y b hy
  have hq := t.inRange_tdiv a b ha hb h0 hmin
  have hdiv : Div.operate (.int t) x y = .ok (.int t (Int.tdiv a b)) := by
    rw [Div.operate, castArith_of_toInt .div t x y a b hx hy]
    simp only [intArith, if_neg h0, if_pos (t.inRange_promote _ hq), Except.map,
      t.wrap_of_inRange _ hq]
  refine ⟨by rw [hdiv, truncQ_div a b h0], ?_⟩
  intro tx ty ex ey ha53 hb53
  rw [hdiv, ex, ey]
  exact (trueQuot_toInt t tx ty a b ha53 hb53 h0 hq).symm

theorem C11_div_divides_in_output_type_witness :
    (toInt .int8 (.int .int32 300) = .ok 44 ∧ toInt .int8 (.int .int32 7) = .ok 7
      ∧ (7 : Int) ≠ 0 ∧ ¬((44 : Int) = IntTy.int8.minVal ∧ (7 : Int) = -1)
      ∧ Div.operate (.int .int8) (.int .int32 300) (.int .int32 7)
          = .ok (.int .int8 (truncQ (((44 : Int) : ℚ) / ((7 : Int) : ℚ)))))
    ∧ (toInt .int8 (.int .int32 100) = .ok 100 ∧ toInt .int8 (.int .int32 7) = .ok 7
      ∧ Div.operate (.int .int8) (.int .int32 100) (.int .int32 7)
          = quotInDoubleThenCast (.int .int8) (.int .int32 100) (.int .int32 7)) :=
  ⟨⟨by decide, by decide, by decide, by decide,
      (C11_div_divides_in_output_type .int8 (.int .int32 300) (.int .int32 7) 44 7
        (by decide) (by decide) (by decide) (by decide)).1⟩,
    ⟨by decide, by decide,
      (C11_div_divides_in_output_type .int8 (.int .int32 100) (.int .int32 7) 100 7
        (by decide) (by decide) (by decide) (by decide)).2 .int32 .int32 rfl rfl
        (by decide) (by decide)⟩⟩

/-- The claim C12 as stated fails for a signed output type narrower than `int`: with
`TypeOut = int8_t` (or `int16_t`) the operands `MIN` and `-1` are divided in `int` after
integer promotion, so `Div` returns `MIN` (the quotient wrapped back) and `Mod` returns 0
instead of taking the undefined branch. -/
theorem C12_counterexample :
    Div.operate (.int .int8) (.int .int8 (-128)) (.int .int8 (-1)) = .ok (.int .int8 (-128))
    ∧ Mod.operate stdTraits (.int .int8) (.int .int8 (-128)) (.int .int8 (-1))
        = .ok (.int .int8 0)
    ∧ Div.operate (.int .int16) (.int .int16 (-32768)) (.int .int16 (-1))
        = .ok (.int .int16 (-32768))
    ∧ ¬ (∀ (t : IntTy) (a b : Int), t.isSigned = true → a = t.minVal → b = -1 →
          Div.operate (.int t) (.int t a) (.int t b) = .error .undefined) := by
  refine ⟨by decide, by decide, by decide, fun h => ?_⟩
  have := h .int8 (-128) (-1) rfl (by decide) rfl
  revert this
  decide

/-- C12 (amended): division and modulo by zero are not intercepted. For an integer output
type and operands whose conversions `a`, `b` to it are defined, `Div` and `Mod` (and `RDiv`,
`RMod` with the roles swapped) are undefined exactly when the converted divisor is zero, or
the output type is signed of at least 32 bits and the converted operands are `MIN` and `-1`;
in every other case they return the native quotient and remainder (for a narrower signed
type the quotient of `MIN` and `-1` wraps back to `MIN`). A zero divisor never yields a
value, and `y = 256` with an 8-bit output type is a division by zero. -/
theorem C12_division_by_zero_is_native (tr : Traits) (t : IntTy) (x y : Val) (a b : Int)
    (hI : tr.isIntegral (.int t) = true) (hF : tr.isFloat (.int t) = false)
    (hD : tr.isDouble (.int t) = false) (hx : toInt t x = .ok a) (hy : toInt t y = .ok b) :
    (Div.operate (.int t) x y = .error .undefined ↔ b = 0 ∨ t.QuotOverflows a b)
    ∧ (Mod.operate tr (.int t) x y = .error .undefined ↔ b = 0 ∨ t.QuotOverflows a b)
    ∧ (¬(b = 0 ∨ t.QuotOverflows a b) →
        Div.operate (.int t) x y = .ok (.int t (t.wrap (Int.tdiv a b)))
        ∧ Mod.operate tr (.int t) x y = .ok (.int t (Int.tmod a b)))
    ∧ (b ≠ 0 → ¬(a = t.minVal ∧ b = -1) → t.wrap (Int.tdiv a b) = Int.tdiv a b)
    ∧ (RDiv.operate (.int t) y x = Div.operate (.int t) x y
        ∧ RMod.operate tr (.int t) y x = Mod.operate tr (.int t) x y)
    ∧ Div.operate (.int .int8) (.int .int32 5) (.int .int32 256) = .error .undefined
    ∧ Mod.operate stdTraits (.int .int8) (.int .int32 5) (.int .int32 256)
        = .error .undefined := by
  have hdiv := Div_eval_cases t x y a b hx hy
  have hmod := Mod_eval_cases tr t x y a b hI hF hD hx hy
  refine ⟨?_, ?_, ?_, ?_, ⟨rfl, rfl⟩, by decide, by decide⟩
  · rw [hdiv]; split_ifs with h <;> simp [h]
  · rw [hmod]; split_ifs with h <;> simp [h]
  · intro h
    rw [hdiv, hmod, if_neg h, if_neg h]
    exact ⟨rfl, rfl⟩
  · intro h0 hmin
    exact t.wrap_of_inRange _
      (t.inRange_tdiv a b (toInt_inRange t x a hx) (toInt_inRange t y b hy) h0 hmin)

theorem C12_division_by_zero_is_native_witness :
    stdTraits.isIntegral (.int .int8) = true ∧ stdTraits.isFloat (.int .int8) = false
    ∧ stdTraits.isDouble (.int .int8) = false
    ∧ toInt .int8 (.int .int32 5) = .ok 5 ∧ toInt .int8 (.int .int32 256) = .ok 0
    ∧ (Div.operate (.int .int8) (.int .int32 5) (.int .int32 256) = .error .undefined
        ↔ (0 : Int) = 0 ∨ IntTy.int8.QuotOverflows 5 0)
    ∧ (Mod.operate stdTraits (.int .int8) (.int .int32 5) (.int .int32 256) = .error .undefined
        ↔ (0 : Int) = 0 ∨ IntTy.int8.QuotOverflows 5 0) :=
  have h := C12_division_by_zero_is_native stdTraits .int8 (.int .int32 5) (.int .int32 256)
    5 0 rfl rfl rfl (by decide) (by decide)
  ⟨rfl, rfl, rfl, by decide, by decide, h.1, h.2.1⟩

/-- Narrowing the floored `double` quotient is undefined when the floor of the exact
quotient is not representable in the integer type. -/
theorem floorQuot_toInt_undefined (t tx ty : IntTy) (x y : Int) (hx : |x| < 2 ^ 53)
    (hy : |y| < 2 ^ 53) (h0 : y ≠ 0) (hr : ¬ t.InRange ⌊(x : ℚ) / y⌋) :
    convert (.int t)
        (.double (binary64.div (toDouble (.int tx x)) (toDouble (.int ty y))).floor)
      = .error .undefined := by
  rw [binary64_div_int tx ty x y hx hy h0]
  have hyq : (y : ℚ) ≠ 0 := by exact_mod_cast h0
  have hx0 : x ≠ 0 := by
    rintro rfl
    apply hr
    simp only [Int.cast_zero, zero_div, Int.floor_zero]
    cases t <;> decide
  have hq0 : (x : ℚ) / y ≠ 0 := div_ne_zero (by exact_mod_cast hx0) hyq
  obtain ⟨r, hround, hfl, _⟩ := binary64_round_quot x y hx0 h0 hx hy
  simp only [Fmt.roundSigned, if_neg hq0, hround, FP.floor, hfl, convert, toInt,
    truncQ_intCast, if_neg hr, Except.map]

/-- The claim C14 as stated fails for the unsigned 32-bit output type on a negative
operand: `Div<uint32>(-1, 2)` divides the wrapped operand and returns 2147483647, while
`TrueDiv<uint32>(-1, 2)` narrows `-0.5` to 0 and `FloorDiv<uint32>(-1, 2)` narrows `-1.0`,
which is undefined. -/
theorem C14_counterexample :
    IntTy.int32.InRange (-1) ∧ IntTy.int32.InRange 2 ∧ IntTy.uint32.bits = 32
    ∧ Div.operate (.int .uint32) (.int .int32 (-1)) (.int .int32 2)
        = .ok (.int .uint32 2147483647)
    ∧ TrueDiv.operate (.int .uint32) (.int .int32 (-1)) (.int .int32 2)
        = .ok (.int .uint32 0)
    ∧ FloorDiv.operate (.int .uint32) (.int .int32 (-1)) (.int .int32 2)
        = .error .undefined
    ∧ TrueDiv.operate (.int .uint32) (.int .int32 (-1)) (.int .int32 2)
        ≠ Div.operate (.int .uint32) (.int .int32 (-1)) (.int .int32 2) := by
  have hdiv : Div.operate (.int .uint32) (.int .int32 (-1)) (.int .int32 2)
      = .ok (.int .uint32 2147483647) := by decide
  have htrue : TrueDiv.operate (.int .uint32) (.int .int32 (-1)) (.int .int32 2)
      = .ok (.int .uint32 0) := by
    rw [TrueDiv_eval]
    exact trueQuot_toInt .uint32 .int32 .int32 (-1) 2 (by decide) (by decide) (by decide)
      (by decide)
  refine ⟨by decide, by decide, rfl, hdiv, htrue, ?_, ?_⟩
  · rw [FloorDiv_eval]
    apply floorQuot_toInt_undefined .uint32 .int32 .int32 (-1) 2 (by decide) (by decide)
      (by decide)
    have hf : ⌊((-1 : Int) : ℚ) / ((2 : Int) : ℚ)⌋ = -1 := by
      rw [Int.floor_eq_iff]; norm_num
    rw [hf]
    decide
  · rw [hdiv, htrue]
    decide

/-- C14 (amended): for an integer output type of at most 32 bits and integer operands
representable in it (in particular 32-bit signed operands and `int32`, or non-negative ones
and `uint32`), with a non-zero divisor and not
the pair `MIN, -1`: `TrueDiv` equals `Div`, and `FloorDiv` equals `Div` when `y` divides
`x` or `x` and `y` have the same sign, and `Div - 1` otherwise. -/
theorem C14_floordiv_truediv_versus_div (t tx ty : IntTy) (x y : Int) (hb : t.bits ≤ 32)
    (hx : t.InRange x) (hy : t.InRange y) (h0 : y ≠ 0) (hmin : ¬(x = t.minVal ∧ y = -1)) :
    ∃ d : Int, Div.operate (.int t) (.int tx x) (.int ty y) = .ok (.int t d)
      ∧ TrueDiv.operate (.int t) (.int tx x) (.int ty y) = .ok (.int t d)
      ∧ FloorDiv.operate (.int t) (.int tx x) (.int ty y)
          = .ok (.int t (if y ∣ x ∨ (0 < x ∧ 0 < y) ∨ (x < 0 ∧ y < 0) then d else d - 1)) := by
  have hx53 := t.abs_lt_of_bits_le x hb hx
  have hy53 := t.abs_lt_of_bits_le y hb hy
  refine ⟨Int.tdiv x y, Div_int_eval t tx ty x y hx hy h0 hmin, ?_, ?_⟩
  · rw [TrueDiv_eval]
    exact trueQuot_toInt t tx ty x y hx53 hy53 h0 (t.inRange_tdiv x y hx hy h0 hmin)
  · rw [FloorDiv_eval, ← floor_quot_eq x y h0]
    exact floorQuot_toInt t tx ty x y hx53 hy53 h0 (t.inRange_floor_quot x y hx hy h0 hmin)

theorem C14_floordiv_truediv_versus_div_witness :
    IntTy.int32.bits ≤ 32 ∧ IntTy.int32.InRange (-7) ∧ IntTy.int32.InRange 2 ∧ (2 : Int) ≠ 0
    ∧ ¬((-7 : Int) = IntTy.int32.minVal ∧ (2 : Int) = -1)
    ∧ ∃ d : Int, Div.operate (.int .int32) (.int .int32 (-7)) (.int .int32 2)
          = .ok (.int .int32 d)
      ∧ TrueDiv.operate (.int .int32) (.int .int32 (-7)) (.int .int32 2) = .ok (.int .int32 d)
      ∧ FloorDiv.operate (.int .int32) (.int .int32 (-7)) (.int .int32 2)
          = .ok (.int .int32 (if (2 : Int) ∣ -7 ∨ ((0 : Int) < -7 ∧ (0 : Int) < 2)
              ∨ ((-7 : Int) < 0 ∧ (2 : Int) < 0) then d else d - 1)) :=
  ⟨by decide, by decide, by decide, by decide, by decide,
    C14_floordiv_truediv_versus_div .int32 .int32 .int32 (-7) 2 (by decide) (by decide)
      (by decide) (by decide) (by decide)⟩

end BinopsJit
